import Mathlib

/-!
Verification of the chess engine core (bitboard position, move
application/undo, move generation, SEE, transposition table, search) against
its specification.  Rust source files are shallowly embedded: `u64` bitboards
become `Nat` (kept below `2 ^ 64`), `i32` squares become `Int`, `Vec`/array
fields become `List`, and in-place mutation becomes explicit state passing.
Loops that iterate over the set bits of a bitboard are embedded with an
explicit fuel argument (64 suffices for any 64-bit word); `Vec` history is
modelled with the most recent entry first, so `push` is `cons` and
`last`/`pop` are `head`/`tail`.
-/

set_option maxRecDepth 4000000

namespace Chess

/-- All 64 bits set; `!x` on `u64` is `MASK64 ^^^ x`. -/
def MASK64 : Nat := 2 ^ 64 - 1

/-- Fueled helper for `u64::trailing_zeros`: scans the low bits upward. -/
def tzAux : Nat → Nat → Nat
  | 0, _ => 0
  | fuel + 1, bb => if bb % 2 = 1 then 0 else tzAux fuel (bb / 2) + 1

/-- Number of trailing zeros of a 64-bit word (`u64::trailing_zeros`): 64 when the word is zero. -/
def trailingZeros64 (bb : Nat) : Nat := tzAux 64 bb

/-- Fueled helper for `u64::count_ones`. -/
def pcAux : Nat → Nat → Nat
  | 0, _ => 0
  | fuel + 1, bb => bb % 2 + pcAux fuel (bb / 2)

/-- Population count of a 64-bit word (`u64::count_ones`). -/
def popCount64 (bb : Nat) : Nat := pcAux 64 bb

/-! ## `types.rs` -/

/-- Sentinel for "no en-passant square" (`types.rs`). -/
def NO_SQ : Int := -1

inductive Color where
  | White
  | Black
deriving DecidableEq, Repr

/-- Flip a color (`Color::other`). -/
def Color.other : Color → Color
  | .White => .Black
  | .Black => .White

inductive PieceKind where
  | Pawn
  | Knight
  | Bishop
  | Rook
  | Queen
  | King
deriving DecidableEq, Repr

inductive Piece where
  | Empty
  | WP | WN | WB | WR | WQ | WK
  | BP | BN | BB | BR | BQ | BK
deriving DecidableEq, Repr

/-- Test for the empty square marker (`Piece::is_empty`). -/
def Piece.is_empty : Piece → Bool
  | .Empty => true
  | _ => false

/-- Color of a piece (`Piece::color`). -/
def Piece.color : Piece → Option Color
  | .WP | .WN | .WB | .WR | .WQ | .WK => some .White
  | .BP | .BN | .BB | .BR | .BQ | .BK => some .Black
  | .Empty => none

/-- Kind of a piece (`Piece::kind`). -/
def Piece.kind : Piece → Option PieceKind
  | .WP | .BP => some .Pawn
  | .WN | .BN => some .Knight
  | .WB | .BB => some .Bishop
  | .WR | .BR => some .Rook
  | .WQ | .BQ => some .Queen
  | .WK | .BK => some .King
  | .Empty => none

/-- Build a piece from kind and color (`Piece::from_kind`). -/
def Piece.from_kind : PieceKind → Color → Piece
  | .Pawn, .White => .WP
  | .Knight, .White => .WN
  | .Bishop, .White => .WB
  | .Rook, .White => .WR
  | .Queen, .White => .WQ
  | .King, .White => .WK
  | .Pawn, .Black => .BP
  | .Knight, .Black => .BN
  | .Bishop, .Black => .BB
  | .Rook, .Black => .BR
  | .Queen, .Black => .BQ
  | .King, .Black => .BK

/-- Stable index 0..12 of a piece (`Piece::index`, the discriminant). -/
def Piece.index : Piece → Nat
  | .Empty => 0
  | .WP => 1
  | .WN => 2
  | .WB => 3
  | .WR => 4
  | .WQ => 5
  | .WK => 6
  | .BP => 7
  | .BN => 8
  | .BB => 9
  | .BR => 10
  | .BQ => 11
  | .BK => 12

/-- Discriminant of `PieceKind`, used to index `PIECE_VALUES` in `see.rs`. -/
def PieceKind.index : PieceKind → Nat
  | .Pawn => 0
  | .Knight => 1
  | .Bishop => 2
  | .Rook => 3
  | .Queen => 4
  | .King => 5

/-- Move record of `types.rs`: origin, destination (`u8`), and flag fields. -/
structure Move where
  from' : Nat
  to' : Nat
  capture : Bool
  en_passant : Bool
  double_push : Bool
  castle : Bool
  promotion : Option PieceKind
deriving DecidableEq, Repr

/-- Quiet move constructor (`Move::quiet`). -/
def Move.quiet (f t : Nat) : Move :=
  ⟨f, t, false, false, false, false, none⟩

/-- Default move (all squares 0, no flags): the null move (`Move::default`). -/
def Move.default : Move := Move.quiet 0 0

/-- Undo record of `types.rs`. -/
structure Undo where
  captured_piece : Piece
  old_castle : Nat
  old_en_passant_sq : Int
  old_halfmove_clock : Int
deriving DecidableEq, Repr

def WK_CASTLE : Nat := 1
def WQ_CASTLE : Nat := 2
def BK_CASTLE : Nat := 4
def BQ_CASTLE : Nat := 8

/-- File of a square: `sq & 7` in `types.rs`; on `i32` this agrees with euclidean mod 8. -/
def file_of (sq : Int) : Int := sq % 8

/-- Rank of a square: `sq >> 3` in `types.rs`, an arithmetic shift, i.e. floor division. -/
def rank_of (sq : Int) : Int := Int.fdiv sq 8

/-- Bounds test for squares (`types.rs` `in_board`). -/
def in_board (sq : Int) : Bool := decide (0 ≤ sq) && decide (sq < 64)

/-! ## Move packing (`types.rs`, `From<Move> for u16` / `From<u16> for Move`) -/

def MOVE_FLAG_DOUBLE_PUSH : Nat := 1
def MOVE_FLAG_KING_CASTLE : Nat := 2
def MOVE_FLAG_QUEEN_CASTLE : Nat := 3
def MOVE_FLAG_CAPTURE : Nat := 4
def MOVE_FLAG_EN_PASSANT : Nat := 5
def MOVE_FLAG_PROMOTION : Nat := 8
def MOVE_FLAG_PROMO_CAPTURE : Nat := 12

/-- Pack a move into 16 bits (`From<Move> for u16`): 6-bit from, 6-bit to, 4-bit flags. -/
def moveToU16 (m : Move) : Nat :=
  let from_u16 := m.from'
  let to_u16 := m.to' <<< 6
  let flags :=
    match m.promotion with
    | some pk =>
        (if m.capture then MOVE_FLAG_PROMO_CAPTURE else MOVE_FLAG_PROMOTION) |||
          (match pk with
            | .Knight => 0
            | .Bishop => 1
            | .Rook => 2
            | .Queen => 3
            | _ => 0)
    | none =>
        if m.en_passant then MOVE_FLAG_EN_PASSANT
        else if m.capture then MOVE_FLAG_CAPTURE
        else if m.castle then
          if file_of (m.to' : Int) > file_of (m.from' : Int) then MOVE_FLAG_KING_CASTLE
          else MOVE_FLAG_QUEEN_CASTLE
        else if m.double_push then MOVE_FLAG_DOUBLE_PUSH
        else 0
  from_u16 ||| to_u16 ||| (flags <<< 12)

/-- Unpack a 16-bit move (`From<u16> for Move`). -/
def moveOfU16 (w : Nat) : Move :=
  if w = 0 then Move.default
  else
    let f := w &&& 0x3F
    let t := (w >>> 6) &&& 0x3F
    let flags := w >>> 12
    let mov := Move.quiet f t
    if flags ≥ MOVE_FLAG_PROMOTION then
      let promo : PieceKind :=
        match flags &&& 3 with
        | 0 => .Knight
        | 1 => .Bishop
        | 2 => .Rook
        | _ => .Queen
      { mov with promotion := some promo, capture := flags &&& 4 ≠ 0 }
    else if flags = MOVE_FLAG_EN_PASSANT then { mov with capture := true, en_passant := true }
    else if flags = MOVE_FLAG_CAPTURE then { mov with capture := true }
    else if flags = MOVE_FLAG_KING_CASTLE ∨ flags = MOVE_FLAG_QUEEN_CASTLE then
      { mov with castle := true }
    else if flags = MOVE_FLAG_DOUBLE_PUSH then { mov with double_push := true }
    else mov

/-! ## `zobrist.rs` -/

/-- One `splitmix64` step: returns (new state, output). -/
def splitmix64 (state : Nat) : Nat × Nat :=
  let st := (state + 0x9E3779B97F4A7C15) % 2 ^ 64
  let x := st
  let x := ((x ^^^ (x >>> 30)) * 0xBF58476D1CE4E5B9) % 2 ^ 64
  let x := ((x ^^^ (x >>> 27)) * 0x94D049BB133111EB) % 2 ^ 64
  (st, x ^^^ (x >>> 31))

/-- Stream of `splitmix64` outputs from a seed. -/
def smStream : Nat → Nat → List Nat
  | _, 0 => []
  | seed, n + 1 =>
    let (st, out) := splitmix64 seed
    out :: smStream st n

/-- Zobrist key material: 13×64 piece-square keys, 16 castle keys,
8 en-passant-file keys, one side key, generated from the fixed seed. -/
structure Zobrist where
  piece : List (List Nat)
  castle : List Nat
  ep_file : List Nat
  side : Nat
deriving DecidableEq, Repr

/-- Deterministic key material from seed `0x123456789ABCDEF0` (`Zobrist::new`). -/
def Zobrist.new : Zobrist :=
  let outs := smStream 0x123456789ABCDEF0 (13 * 64 + 16 + 8 + 1)
  let pieceKeys := (List.range 13).map fun p => (outs.drop (p * 64)).take 64
  let castleKeys := (outs.drop (13 * 64)).take 16
  let epKeys := (outs.drop (13 * 64 + 16)).take 8
  let sideKey := outs.getD (13 * 64 + 16 + 8) 0
  ⟨pieceKeys, castleKeys, epKeys, sideKey⟩

/-- Piece-square key lookup (`Zobrist::piece_key`). -/
def Zobrist.piece_key (z : Zobrist) (pc : Piece) (sq : Nat) : Nat :=
  (z.piece.getD pc.index []).getD sq 0

/-! ## Slider attacks

`board.rs` and `see.rs` consume `magics::get_rook_attacks` /
`magics::get_bishop_attacks`, whose tables are emitted by the build script
into `generated_attacks.rs` (not part of `src/`).  The in-repo generator
semantics is `attacks.rs`: the table entry addressed by the masked blockers
is the classical ray attack set (`rays_rook_from` / `rays_bishop_from`),
and spec §4.1 requires the magic-indexed and portable implementations to
produce identical outputs.  We embed the ray computation from `attacks.rs`
and define the magic getters as ray attacks of the masked occupancy. -/

/-- Single-bit bitboard (`attacks.rs` `bit`). -/
def bit (sq : Nat) : Nat := 1 <<< sq

/-- Square from rank and file (`attacks.rs` `rf_to_sq`). -/
def rf_to_sq (r f : Int) : Nat := (r * 8 + f).toNat

/-- One ray walk: step `(dr, df)` from `(r, f)`, accumulating squares up to
and including the first blocker (`attacks.rs` ray loops; fuel 8 bounds any
board ray). -/
def rayWalk : Nat → Int → Int → Int → Int → Nat → Nat
  | 0, _, _, _, _, _ => 0
  | fuel + 1, r, f, dr, df, blockers =>
    if 0 ≤ r ∧ r ≤ 7 ∧ 0 ≤ f ∧ f ≤ 7 then
      let b := bit (rf_to_sq r f)
      if blockers &&& b ≠ 0 then b
      else b ||| rayWalk fuel (r + dr) (f + df) dr df blockers
    else 0

/-- Classical rook ray attacks (`attacks.rs` `rays_rook_from`). -/
def rays_rook_from (sq : Nat) (blockers : Nat) : Nat :=
  let r0 : Int := sq / 8
  let f0 : Int := sq % 8
  rayWalk 8 (r0 + 1) f0 1 0 blockers |||
  rayWalk 8 (r0 - 1) f0 (-1) 0 blockers |||
  rayWalk 8 r0 (f0 + 1) 0 1 blockers |||
  rayWalk 8 r0 (f0 - 1) 0 (-1) blockers

/-- Classical bishop ray attacks (`attacks.rs` `rays_bishop_from`). -/
def rays_bishop_from (sq : Nat) (blockers : Nat) : Nat :=
  let r0 : Int := sq / 8
  let f0 : Int := sq % 8
  rayWalk 8 (r0 + 1) (f0 + 1) 1 1 blockers |||
  rayWalk 8 (r0 + 1) (f0 - 1) 1 (-1) blockers |||
  rayWalk 8 (r0 - 1) (f0 + 1) (-1) 1 blockers |||
  rayWalk 8 (r0 - 1) (f0 - 1) (-1) (-1) blockers

/-- Relevant-ray walk for the blocker mask: stops one short of the edge
(`attacks.rs` `build_rook_table_for` / `build_bishop_table_for` order lists). -/
def maskWalk : Nat → Int → Int → Int → Int → Nat
  | 0, _, _, _, _ => 0
  | fuel + 1, r, f, dr, df =>
    if 1 ≤ r ∧ r ≤ 6 ∧ 1 ≤ f ∧ f ≤ 6 then
      bit (rf_to_sq r f) ||| maskWalk fuel (r + dr) (f + df) dr df
    else 0

/-- Rook relevant blocker mask (rays stopping one short of the edge); for
rook rays the off-axis coordinate is not edge-restricted, so the mask walk
clamps only the moving coordinate.  We follow `build_rook_table_for`:
north/south restrict the rank to 1..6, east/west restrict the file to 1..6. -/
def rookMaskWalkNS : Nat → Int → Int → Int → Nat
  | 0, _, _, _ => 0
  | fuel + 1, r, f, dr =>
    if 1 ≤ r ∧ r ≤ 6 then bit (rf_to_sq r f) ||| rookMaskWalkNS fuel (r + dr) f dr
    else 0

def rookMaskWalkEW : Nat → Int → Int → Int → Nat
  | 0, _, _, _ => 0
  | fuel + 1, r, f, df =>
    if 1 ≤ f ∧ f ≤ 6 then bit (rf_to_sq r f) ||| rookMaskWalkEW fuel r (f + df) df
    else 0

/-- Rook relevant-blocker mask of `build_rook_table_for`. -/
def rookMask (sq : Nat) : Nat :=
  let r0 : Int := sq / 8
  let f0 : Int := sq % 8
  rookMaskWalkNS 8 (r0 + 1) f0 1 |||
  rookMaskWalkNS 8 (r0 - 1) f0 (-1) |||
  rookMaskWalkEW 8 r0 (f0 + 1) 1 |||
  rookMaskWalkEW 8 r0 (f0 - 1) (-1)

/-- Bishop relevant-blocker mask of `build_bishop_table_for`. -/
def bishopMask (sq : Nat) : Nat :=
  let r0 : Int := sq / 8
  let f0 : Int := sq % 8
  maskWalk 8 (r0 + 1) (f0 + 1) 1 1 |||
  maskWalk 8 (r0 + 1) (f0 - 1) 1 (-1) |||
  maskWalk 8 (r0 - 1) (f0 + 1) (-1) 1 |||
  maskWalk 8 (r0 - 1) (f0 - 1) (-1) (-1)

/-- Rook attack lookup (`magics::get_rook_attacks`): the generated table,
addressed by the masked blockers, holds the classical ray attack set for
those blockers. -/
def get_rook_attacks (sq : Nat) (occupied : Nat) : Nat :=
  rays_rook_from sq (occupied &&& rookMask sq)

/-- Bishop attack lookup (`magics::get_bishop_attacks`). -/
def get_bishop_attacks (sq : Nat) (occupied : Nat) : Nat :=
  rays_bishop_from sq (occupied &&& bishopMask sq)


/-! ## `board.rs` -/

def KNIGHT_DELTAS : List Int := [6, 10, 15, 17, -6, -10, -15, -17]
def KING_DELTAS : List Int := [1, -1, 8, -8, 7, 9, -7, -9]

/-- Position state of `board.rs`.  `history` is the `Vec<ZKey>` with the most
recent key first (`push` is cons, `pop` is tail, `last` is head). -/
structure Board where
  piece_bb : List Nat
  piece_on : List Piece
  w_pieces : Nat
  b_pieces : Nat
  all_pieces : Nat
  turn : Color
  castle : Nat
  en_passant_sq : Int
  halfmove_clock : Int
  fullmove_number : Int
  history : List Nat
  zobrist : Nat
  zob : Zobrist
deriving DecidableEq, Repr

/-- Bit of an in-board square held as `i32` (`1u64 << sq`). -/
def sqBit (sq : Int) : Nat := 1 <<< sq.toNat

/-- Piece on a square, square given as `i32`/`usize` (`self.piece_on[sq]`). -/
def Board.pieceAt (b : Board) (sq : Int) : Piece := b.piece_on.getD sq.toNat .Empty

/-- Bitboard of a piece (`self.piece_bb[p.index()]`). -/
def Board.bbOf (b : Board) (p : Piece) : Nat := b.piece_bb.getD p.index 0

/-- Empty board (`Board::empty`). -/
def Board.empty : Board where
  piece_bb := List.replicate 13 0
  piece_on := List.replicate 64 .Empty
  w_pieces := 0
  b_pieces := 0
  all_pieces := 0
  turn := .White
  castle := 0
  en_passant_sq := NO_SQ
  halfmove_clock := 0
  fullmove_number := 1
  history := []
  zobrist := 0
  zob := Zobrist.new

/-- Set a square of the placement array (`place_piece`). -/
def Board.place_piece (b : Board) (p : Piece) (sq : Nat) : Board :=
  { b with piece_on := b.piece_on.set sq p }

/-- Recompute the bitboards and occupancies from the placement array
(`rebuild_derived`). -/
def Board.rebuild_derived (b : Board) : Board :=
  let init := { b with piece_bb := List.replicate 13 0, w_pieces := 0, b_pieces := 0 }
  let b := (List.range 64).foldl (fun (acc : Board) sq =>
    let p := acc.piece_on.getD sq .Empty
    if p.is_empty then acc
    else
      let acc := { acc with
        piece_bb := acc.piece_bb.set p.index ((acc.piece_bb.getD p.index 0) ||| (1 <<< sq)) }
      match p.color with
      | some .White => { acc with w_pieces := acc.w_pieces ||| (1 <<< sq) }
      | some .Black => { acc with b_pieces := acc.b_pieces ||| (1 <<< sq) }
      | none => acc) init
  { b with all_pieces := b.w_pieces ||| b.b_pieces }

/-- Recompute the Zobrist key from scratch (`recompute_zobrist`): XOR of the
piece-square keys of occupied squares, the castle key of the current mask,
the en-passant file key when set, and the side key when Black moves. -/
def Board.recompute_zobrist (b : Board) : Board :=
  let h := (List.range 64).foldl (fun h sq =>
    let p := b.piece_on.getD sq .Empty
    if p.is_empty then h else h ^^^ b.zob.piece_key p sq) 0
  let h := h ^^^ b.zob.castle.getD (b.castle &&& 0xF) 0
  let h := if b.en_passant_sq ≠ NO_SQ then h ^^^ b.zob.ep_file.getD (b.en_passant_sq % 8).toNat 0 else h
  let h := if b.turn = .Black then h ^^^ b.zob.side else h
  { b with zobrist := h }

/-- Count earlier occurrences of the current key (`count_repetitions`): scan
the last `halfmove_clock` history entries, skipping the topmost (the current
key itself, pushed by the last `make_move`). -/
def Board.count_repetitions (b : Board) : Nat :=
  ((b.history.take b.halfmove_clock.toNat).drop 1).countP (fun key => key = b.zobrist)

/-- Repetition-draw predicate used by the search (`is_draw_by_repetition`). -/
def Board.is_draw_by_repetition (b : Board) : Bool :=
  b.count_repetitions ≥ 2

/-- Attack query (`is_square_attacked`): pawn, knight, king, rook/queen and
bishop/queen attacks on `square` by color `c`. -/
def Board.is_square_attacked (b : Board) (square : Int) (c : Color) : Bool :=
  let pawn := if c = .White then Piece.WP else Piece.BP
  let dir : Int := if c = .White then -8 else 8
  let f := file_of square
  let pawnHit :=
    (decide (f > 0) &&
      (let s1 := square + dir - 1
       in_board s1 && decide (b.pieceAt s1 = pawn))) ||
    (decide (f < 7) &&
      (let s2 := square + dir + 1
       in_board s2 && decide (b.pieceAt s2 = pawn)))
  let n := if c = .White then Piece.WN else Piece.BN
  let knightHit := KNIGHT_DELTAS.any fun d =>
    let to' := square + d
    in_board to' && decide ((file_of square - file_of to').natAbs ≤ 2) &&
      decide (b.pieceAt to' = n)
  let k := if c = .White then Piece.WK else Piece.BK
  let kingHit := KING_DELTAS.any fun d =>
    let to' := square + d
    in_board to' && decide ((file_of square - file_of to').natAbs ≤ 1) &&
      decide (b.pieceAt to' = k)
  let occ := b.all_pieces
  let rook_like := if c = .White then b.bbOf .WR ||| b.bbOf .WQ else b.bbOf .BR ||| b.bbOf .BQ
  let rookHit := get_rook_attacks square.toNat occ &&& rook_like ≠ 0
  let bishop_like := if c = .White then b.bbOf .WB ||| b.bbOf .WQ else b.bbOf .BB ||| b.bbOf .BQ
  let bishopHit := get_bishop_attacks square.toNat occ &&& bishop_like ≠ 0
  pawnHit || knightHit || kingHit || rookHit || bishopHit

/-- Iteration over the set bits of a bitboard, emitting moves: the
`while bb != 0 { let from = bb.trailing_zeros(); bb &= bb - 1; ... }` loops.
Fuel 64 covers every 64-bit word (one bit is cleared per step). -/
def whileBits : Nat → Nat → (Int → List Move) → List Move
  | 0, _, _ => []
  | fuel + 1, bb, f =>
    if bb = 0 then []
    else f (trailingZeros64 bb : Nat) ++ whileBits fuel (bb &&& (bb - 1)) f

/-- Pawn move generation (`gen_pawns`): pushes, double pushes, captures,
promotions and en-passant, in source push order. -/
def Board.gen_pawns (b : Board) : List Move :=
  let white := b.turn = .White
  let pawn := if white then Piece.WP else Piece.BP
  let pawns := b.bbOf pawn
  let enemy := if white then b.b_pieces else b.w_pieces
  let dir : Int := if white then 8 else -8
  let start_rank : Int := if white then 1 else 6
  let promo_rank : Int := if white then 6 else 1
  whileBits 64 pawns fun from' =>
    let r := rank_of from'
    let f := file_of from'
    let pushPart :=
      let to' := from' + dir
      if in_board to' && decide (b.all_pieces &&& sqBit to' = 0) then
        if r = promo_rank then
          [PieceKind.Queen, .Rook, .Bishop, .Knight].map fun pk =>
            ⟨from'.toNat, to'.toNat, false, false, false, false, some pk⟩
        else
          [Move.quiet from'.toNat to'.toNat] ++
            (if r = start_rank then
              let to2 := from' + 2 * dir
              if b.all_pieces &&& sqBit to2 = 0 then
                [⟨from'.toNat, to2.toNat, false, false, true, false, none⟩]
              else []
            else [])
      else []
    let capPart := [(-1 : Int), 1].flatMap fun df =>
      let cap := from' + dir + df
      if (df = -1 ∧ f = 0) ∨ (df = 1 ∧ f = 7) then []
      else if ¬ in_board cap then []
      else
        let cap_bb := sqBit cap
        let caps :=
          if enemy &&& cap_bb ≠ 0 then
            if r = promo_rank then
              [PieceKind.Queen, .Rook, .Bishop, .Knight].map fun pk =>
                ⟨from'.toNat, cap.toNat, true, false, false, false, some pk⟩
            else
              [⟨from'.toNat, cap.toNat, true, false, false, false, none⟩]
          else []
        caps ++
          (if b.en_passant_sq = cap then
            [⟨from'.toNat, cap.toNat, true, true, false, false, none⟩]
          else [])
    pushPart ++ capPart

/-- First set square of a bitboard (`first_sq`). -/
def Board.first_sq (bb : Nat) : Option Int :=
  if bb = 0 then none else some (trailingZeros64 bb : Nat)

/-- Knight, king and castling move generation (`gen_leapers`). -/
def Board.gen_leapers (b : Board) : List Move :=
  let white := b.turn = .White
  let friendly := if white then b.w_pieces else b.b_pieces
  let kn := if white then Piece.WN else Piece.BN
  let knightMoves := whileBits 64 (b.bbOf kn) fun from' =>
    KNIGHT_DELTAS.filterMap fun d =>
      let to' := from' + d
      if ¬ in_board to' then none
      else if (file_of from' - file_of to').natAbs > 2 then none
      else if friendly &&& sqBit to' ≠ 0 then none
      else
        let capture := b.all_pieces &&& sqBit to' ≠ 0
        some ⟨from'.toNat, to'.toNat, capture, false, false, false, none⟩
  let king := if white then Piece.WK else Piece.BK
  let king_bb := b.bbOf king
  let kingPart :=
    match Board.first_sq king_bb with
    | none => []
    | some from' =>
      let kingMoves := KING_DELTAS.filterMap fun d =>
        let to' := from' + d
        if ¬ in_board to' then none
        else if (file_of from' - file_of to').natAbs > 1 then none
        else if friendly &&& sqBit to' ≠ 0 then none
        else
          let capture := b.all_pieces &&& sqBit to' ≠ 0
          some ⟨from'.toNat, to'.toNat, capture, false, false, false, none⟩
      if b.is_square_attacked from' b.turn.other then kingMoves
      else
        kingMoves ++
          (if white then
            (if b.castle &&& WK_CASTLE ≠ 0 ∧
                b.all_pieces &&& ((1 <<< 5) ||| (1 <<< 6)) = 0 ∧
                b.pieceAt 7 = Piece.WR ∧
                ¬ b.is_square_attacked 5 .Black ∧
                ¬ b.is_square_attacked 6 .Black then
              [⟨4, 6, false, false, false, true, none⟩] else []) ++
            (if b.castle &&& WQ_CASTLE ≠ 0 ∧
                b.all_pieces &&& ((1 <<< 1) ||| (1 <<< 2) ||| (1 <<< 3)) = 0 ∧
                b.pieceAt 0 = Piece.WR ∧
                ¬ b.is_square_attacked 3 .Black ∧
                ¬ b.is_square_attacked 2 .Black then
              [⟨4, 2, false, false, false, true, none⟩] else [])
          else
            (if b.castle &&& BK_CASTLE ≠ 0 ∧
                b.all_pieces &&& ((1 <<< 61) ||| (1 <<< 62)) = 0 ∧
                b.pieceAt 63 = Piece.BR ∧
                ¬ b.is_square_attacked 61 .White ∧
                ¬ b.is_square_attacked 62 .White then
              [⟨60, 62, false, false, false, true, none⟩] else []) ++
            (if b.castle &&& BQ_CASTLE ≠ 0 ∧
                b.all_pieces &&& ((1 <<< 57) ||| (1 <<< 58) ||| (1 <<< 59)) = 0 ∧
                b.pieceAt 56 = Piece.BR ∧
                ¬ b.is_square_attacked 59 .White ∧
                ¬ b.is_square_attacked 58 .White then
              [⟨60, 58, false, false, false, true, none⟩] else []))
  knightMoves ++ kingPart

/-- Bishop, rook and queen move generation (`gen_sliders`). -/
def Board.gen_sliders (b : Board) : List Move :=
  let white := b.turn = .White
  let friendly := if white then b.w_pieces else b.b_pieces
  let enemy := if white then b.b_pieces else b.w_pieces
  let occ := b.all_pieces
  let b_piece := if white then Piece.WB else Piece.BB
  let bishopMoves := whileBits 64 (b.bbOf b_piece) fun from' =>
    let att := get_bishop_attacks from'.toNat occ &&& (MASK64 ^^^ friendly)
    whileBits 64 att fun to' =>
      let capture := enemy &&& sqBit to' ≠ 0
      [⟨from'.toNat, to'.toNat, capture, false, false, false, none⟩]
  let r_piece := if white then Piece.WR else Piece.BR
  let rookMoves := whileBits 64 (b.bbOf r_piece) fun from' =>
    let att := get_rook_attacks from'.toNat occ &&& (MASK64 ^^^ friendly)
    whileBits 64 att fun to' =>
      let capture := enemy &&& sqBit to' ≠ 0
      [⟨from'.toNat, to'.toNat, capture, false, false, false, none⟩]
  let q_piece := if white then Piece.WQ else Piece.BQ
  let queenMoves := whileBits 64 (b.bbOf q_piece) fun from' =>
    let att := (get_rook_attacks from'.toNat occ ||| get_bishop_attacks from'.toNat occ) &&&
      (MASK64 ^^^ friendly)
    whileBits 64 att fun to' =>
      let capture := enemy &&& sqBit to' ≠ 0
      [⟨from'.toNat, to'.toNat, capture, false, false, false, none⟩]
  bishopMoves ++ rookMoves ++ queenMoves

/-- Pseudo-legal move generation (`generate_pseudo_legal_moves`). -/
def Board.generate_pseudo_legal_moves (b : Board) : List Move :=
  b.gen_pawns ++ b.gen_leapers ++ b.gen_sliders

/-- Move application (`make_move`): returns the mutated board and the undo
record.  The sequential `let`-shadowing mirrors the in-place mutation. -/
def Board.make_move (b : Board) (m : Move) : Board × Undo :=
  let undo : Undo := ⟨.Empty, b.castle, b.en_passant_sq, b.halfmove_clock⟩
  let zobrist :=
    if b.en_passant_sq ≠ NO_SQ then
      b.zobrist ^^^ b.zob.ep_file.getD (b.en_passant_sq % 8).toNat 0
    else b.zobrist
  let en_passant_sq := NO_SQ
  let from' := m.from'
  let to' := m.to'
  let moving := b.piece_on.getD from' .Empty
  let zobrist := zobrist ^^^ b.zob.piece_key moving from'
  let piece_on := b.piece_on.set from' .Empty
  let piece_bb := b.piece_bb.set moving.index ((b.piece_bb.getD moving.index 0) ^^^ (1 <<< from'))
  let w_pieces := if moving.color = some .White then b.w_pieces ^^^ (1 <<< from') else b.w_pieces
  let b_pieces := if moving.color = some .Black then b.b_pieces ^^^ (1 <<< from') else b.b_pieces
  let (zobrist, piece_on, piece_bb, w_pieces, b_pieces, undo) :=
    if m.capture then
      let cap_sq := if m.en_passant then (if b.turn = .White then to' - 8 else to' + 8) else to'
      let captured := piece_on.getD cap_sq .Empty
      let undo := { undo with captured_piece := captured }
      if ¬ captured.is_empty then
        let zobrist := zobrist ^^^ b.zob.piece_key captured cap_sq
        let piece_on := piece_on.set cap_sq .Empty
        let piece_bb := piece_bb.set captured.index ((piece_bb.getD captured.index 0) ^^^ (1 <<< cap_sq))
        let w_pieces := if captured.color = some .White then w_pieces ^^^ (1 <<< cap_sq) else w_pieces
        let b_pieces := if captured.color = some .Black then b_pieces ^^^ (1 <<< cap_sq) else b_pieces
        (zobrist, piece_on, piece_bb, w_pieces, b_pieces, undo)
      else (zobrist, piece_on, piece_bb, w_pieces, b_pieces, undo)
    else (zobrist, piece_on, piece_bb, w_pieces, b_pieces, undo)
  let (zobrist, piece_on, piece_bb) :=
    match m.promotion with
    | some pk =>
      let promoted_piece := Piece.from_kind pk b.turn
      (zobrist ^^^ b.zob.piece_key promoted_piece to',
       piece_on.set to' promoted_piece,
       piece_bb.set promoted_piece.index ((piece_bb.getD promoted_piece.index 0) ||| (1 <<< to')))
    | none =>
      (zobrist ^^^ b.zob.piece_key moving to',
       piece_on.set to' moving,
       piece_bb.set moving.index ((piece_bb.getD moving.index 0) ||| (1 <<< to')))
  let w_pieces := if moving.color = some .White then w_pieces ||| (1 <<< to') else w_pieces
  let b_pieces := if moving.color = some .Black then b_pieces ||| (1 <<< to') else b_pieces
  let (zobrist, piece_on, piece_bb, w_pieces, b_pieces) :=
    if m.castle then
      let (rook_from, rook_to) := if to' > from' then (to' + 1, to' - 1) else (to' - 2, to' + 1)
      let rook_piece := piece_on.getD rook_from .Empty
      let zobrist := zobrist ^^^ b.zob.piece_key rook_piece rook_from
      let zobrist := zobrist ^^^ b.zob.piece_key rook_piece rook_to
      let piece_on := (piece_on.set rook_from .Empty).set rook_to rook_piece
      let rook_bb := (1 <<< rook_from) ||| (1 <<< rook_to)
      let piece_bb := piece_bb.set rook_piece.index ((piece_bb.getD rook_piece.index 0) ^^^ rook_bb)
      let w_pieces := if rook_piece.color = some .White then w_pieces ^^^ rook_bb else w_pieces
      let b_pieces := if rook_piece.color = some .Black then b_pieces ^^^ rook_bb else b_pieces
      (zobrist, piece_on, piece_bb, w_pieces, b_pieces)
    else (zobrist, piece_on, piece_bb, w_pieces, b_pieces)
  let (zobrist, en_passant_sq) :=
    if m.double_push then
      let ep := if b.turn = .White then from' + 8 else from' - 8
      ((zobrist ^^^ b.zob.ep_file.getD (ep % 8) 0 : Nat), (ep : Int))
    else (zobrist, en_passant_sq)
  let halfmove_clock :=
    if moving.kind = some .Pawn ∨ m.capture then 0 else b.halfmove_clock + 1
  let zobrist := zobrist ^^^ b.zob.castle.getD (b.castle &&& 0xF) 0
  let castle :=
    match moving with
    | .WK => b.castle &&& (MASK64 ^^^ (WK_CASTLE ||| WQ_CASTLE))
    | .BK => b.castle &&& (MASK64 ^^^ (BK_CASTLE ||| BQ_CASTLE))
    | _ => b.castle
  let castle :=
    if from' = 0 then castle &&& (MASK64 ^^^ WQ_CASTLE)
    else if from' = 7 then castle &&& (MASK64 ^^^ WK_CASTLE)
    else if from' = 56 then castle &&& (MASK64 ^^^ BQ_CASTLE)
    else if from' = 63 then castle &&& (MASK64 ^^^ BK_CASTLE)
    else castle
  let castle :=
    if m.capture then
      if to' = 0 then castle &&& (MASK64 ^^^ WQ_CASTLE)
      else if to' = 7 then castle &&& (MASK64 ^^^ WK_CASTLE)
      else if to' = 56 then castle &&& (MASK64 ^^^ BQ_CASTLE)
      else if to' = 63 then castle &&& (MASK64 ^^^ BK_CASTLE)
      else castle
    else castle
  let zobrist := zobrist ^^^ b.zob.castle.getD (castle &&& 0xF) 0
  let all_pieces := w_pieces ||| b_pieces
  let zobrist := zobrist ^^^ b.zob.side
  let fullmove_number := if b.turn = .Black then b.fullmove_number + 1 else b.fullmove_number
  let turn := b.turn.other
  let history := zobrist :: b.history
  ({ b with
      piece_bb, piece_on, w_pieces, b_pieces, all_pieces, turn, castle,
      en_passant_sq, halfmove_clock, fullmove_number, history, zobrist },
   undo)

/-- Move reversal (`unmake_move`). -/
def Board.unmake_move (b : Board) (m : Move) (u : Undo) : Board :=
  let history := b.history.tail
  let zobrist := history.headD 0
  let turn := b.turn.other
  let fullmove_number := if turn = .Black then b.fullmove_number - 1 else b.fullmove_number
  let castle := u.old_castle
  let en_passant_sq := u.old_en_passant_sq
  let halfmove_clock := u.old_halfmove_clock
  let from' := m.from'
  let to' := m.to'
  let piece_that_arrived := b.piece_on.getD to' .Empty
  let moving_piece :=
    if m.promotion.isSome then Piece.from_kind .Pawn turn else piece_that_arrived
  let piece_on := b.piece_on.set from' moving_piece
  let piece_bb := b.piece_bb.set moving_piece.index ((b.piece_bb.getD moving_piece.index 0) ||| (1 <<< from'))
  let w_pieces := if moving_piece.color = some .White then b.w_pieces ||| (1 <<< from') else b.w_pieces
  let b_pieces := if moving_piece.color = some .Black then b.b_pieces ||| (1 <<< from') else b.b_pieces
  let piece_bb := piece_bb.set piece_that_arrived.index
    ((piece_bb.getD piece_that_arrived.index 0) &&& (MASK64 ^^^ (1 <<< to')))
  let w_pieces := if piece_that_arrived.color = some .White then w_pieces &&& (MASK64 ^^^ (1 <<< to')) else w_pieces
  let b_pieces := if piece_that_arrived.color = some .Black then b_pieces &&& (MASK64 ^^^ (1 <<< to')) else b_pieces
  let (piece_on, piece_bb, w_pieces, b_pieces) :=
    if m.capture then
      let captured := u.captured_piece
      let (piece_on, cap_sq) :=
        if m.en_passant then
          (piece_on.set to' .Empty, if turn = .White then to' - 8 else to' + 8)
        else (piece_on, to')
      let piece_on := piece_on.set cap_sq captured
      if ¬ captured.is_empty then
        let piece_bb := piece_bb.set captured.index ((piece_bb.getD captured.index 0) ||| (1 <<< cap_sq))
        let w_pieces := if captured.color = some .White then w_pieces ||| (1 <<< cap_sq) else w_pieces
        let b_pieces := if captured.color = some .Black then b_pieces ||| (1 <<< cap_sq) else b_pieces
        (piece_on, piece_bb, w_pieces, b_pieces)
      else (piece_on, piece_bb, w_pieces, b_pieces)
    else (piece_on.set to' .Empty, piece_bb, w_pieces, b_pieces)
  let (piece_on, piece_bb, w_pieces, b_pieces) :=
    if m.castle then
      let (rook_from, rook_to) := if to' > from' then (to' + 1, to' - 1) else (to' - 2, to' + 1)
      let rook := piece_on.getD rook_to .Empty
      let piece_on := (piece_on.set rook_from rook).set rook_to .Empty
      let rook_bb := (1 <<< rook_from) ||| (1 <<< rook_to)
      let piece_bb := piece_bb.set rook.index ((piece_bb.getD rook.index 0) ^^^ rook_bb)
      let w_pieces := if rook.color = some .White then w_pieces ^^^ rook_bb else w_pieces
      let b_pieces := if rook.color = some .Black then b_pieces ^^^ rook_bb else b_pieces
      (piece_on, piece_bb, w_pieces, b_pieces)
    else (piece_on, piece_bb, w_pieces, b_pieces)
  let all_pieces := w_pieces ||| b_pieces
  { b with
      piece_bb, piece_on, w_pieces, b_pieces, all_pieces, turn, castle,
      en_passant_sq, halfmove_clock, fullmove_number, history, zobrist }

/-- Null-move application (`make_null_move`). -/
def Board.make_null_move (b : Board) : Board × Undo :=
  let undo : Undo := ⟨.Empty, b.castle, b.en_passant_sq, b.halfmove_clock⟩
  let (zobrist, en_passant_sq) :=
    if b.en_passant_sq ≠ NO_SQ then
      (b.zobrist ^^^ b.zob.ep_file.getD (b.en_passant_sq % 8).toNat 0, NO_SQ)
    else (b.zobrist, b.en_passant_sq)
  let turn := b.turn.other
  let zobrist := zobrist ^^^ b.zob.side
  let halfmove_clock := b.halfmove_clock + 1
  let history := zobrist :: b.history
  ({ b with turn, zobrist, en_passant_sq, halfmove_clock, history }, undo)

/-- Null-move reversal (`unmake_null_move`). -/
def Board.unmake_null_move (b : Board) (u : Undo) : Board :=
  let history := b.history.tail
  let zobrist := history.headD 0
  { b with
      history, zobrist, turn := b.turn.other,
      en_passant_sq := u.old_en_passant_sq, halfmove_clock := u.old_halfmove_clock }

/-- Legality filter loop of `generate_legal_moves`: each pseudo-legal move is
applied, the mover must still have a king and it must not be attacked, and
the move is unmade (the unmade board is threaded onward, as in the source). -/
def legalLoop : Board → List Move → List Move
  | _, [] => []
  | b, m :: rest =>
    let (b2, u) := b.make_move m
    let us := b2.turn.other
    let our_king_bb := b2.bbOf (Piece.from_kind .King us)
    if our_king_bb = 0 then legalLoop (b2.unmake_move m u) rest
    else
      let king_sq : Int := trailingZeros64 our_king_bb
      if ¬ b2.is_square_attacked king_sq b2.turn then
        m :: legalLoop (b2.unmake_move m u) rest
      else legalLoop (b2.unmake_move m u) rest

/-- Legal move generation (`generate_legal_moves`). -/
def Board.generate_legal_moves (b : Board) : List Move :=
  legalLoop b b.generate_pseudo_legal_moves


/-! ## `fen.rs` and `perft.rs` -/

/-- Piece from a FEN character (`impl From<char> for Piece`). -/
def pieceOfChar (c : Char) : Piece :=
  if c = 'P' then .WP else if c = 'N' then .WN else if c = 'B' then .WB
  else if c = 'R' then .WR else if c = 'Q' then .WQ else if c = 'K' then .WK
  else if c = 'p' then .BP else if c = 'n' then .BN else if c = 'b' then .BB
  else if c = 'r' then .BR else if c = 'q' then .BQ else if c = 'k' then .BK
  else .Empty

/-- Standard start FEN (`types.rs` `START_FEN`). -/
def START_FEN : String := "rnbqkbnr/pppppppp/8/8/8/8/PPPPPPPP/RNBQKBNR w KQkq - 0 1"

/-- Whitespace splitting over characters (models `str::split_whitespace`). -/
def splitWS (cs : List Char) : List (List Char) :=
  let step := fun (c : Char) (acc : List (List Char) × List Char) =>
    if c = ' ' then
      if acc.2 = [] then acc else (acc.2 :: acc.1, [])
    else (acc.1, c :: acc.2)
  let (toks, cur) := cs.foldr step ([], [])
  if cur = [] then toks else cur :: toks

/-- Decimal digit parse of a token (models `str::parse` on the clock fields;
a non-numeric token yields `none`, matched with `unwrap_or`). -/
def parseNat? (cs : List Char) : Option Nat :=
  if cs = [] then none
  else cs.foldl (fun acc c =>
    match acc with
    | none => none
    | some n => if '0' ≤ c ∧ c ≤ '9' then some (n * 10 + (c.toNat - '0'.toNat)) else none)
    (some 0)

/-- FEN parser (`fen.rs` `parse_fen`), over the character list of the input.
Builds the placement, side, castling, en-passant and clocks, then derives
bitboards and the Zobrist key and seeds the history with the start key. -/
def parse_fen (fen : String) : Except String Board :=
  match splitWS fen.toList with
  | placement :: side :: castle :: ep :: rest =>
    let halfmove := rest.getD 0 ['0']
    let fullmove := rest.getD 1 ['1']
    let placed : Except String (Board × Int × Int) :=
      placement.foldl (fun acc ch =>
        match acc with
        | .error e => .error e
        | .ok (b, rank, file) =>
          if ch = '/' then .ok (b, rank - 1, 0)
          else if '1' ≤ ch ∧ ch ≤ '8' then
            .ok (b, rank, file + ((ch.toNat - '0'.toNat : Nat) : Int))
          else if ch.isAlpha then
            if ¬ (0 ≤ file ∧ file < 8 ∧ 0 ≤ rank ∧ rank < 8) then .error "bad board in FEN"
            else .ok (b.place_piece (pieceOfChar ch) (rank * 8 + file).toNat, rank, file + 1)
          else .error "bad char in placement")
        (.ok (Board.empty, 7, 0))
    match placed with
    | .error e => .error e
    | .ok (b, _, _) =>
      let turn : Except String Color :=
        if side = ['w'] then .ok .White
        else if side = ['b'] then .ok .Black
        else .error "bad side"
      match turn with
      | .error e => .error e
      | .ok turn =>
        let cr : Except String Nat :=
          if castle = ['-'] then .ok 0
          else castle.foldl (fun acc c =>
            match acc with
            | .error e => .error e
            | .ok mask =>
              if c = 'K' then .ok (mask ||| WK_CASTLE)
              else if c = 'Q' then .ok (mask ||| WQ_CASTLE)
              else if c = 'k' then .ok (mask ||| BK_CASTLE)
              else if c = 'q' then .ok (mask ||| BQ_CASTLE)
              else .error "bad castling") (.ok 0)
        match cr with
        | .error e => .error e
        | .ok castle =>
          let epSq : Except String Int :=
            if ep = ['-'] then .ok NO_SQ
            else if ep.length ≠ 2 then .error "bad ep"
            else
              let f := (ep.getD 0 'a').toLower.toNat - 'a'.toNat
              let r := (ep.getD 1 '1').toNat - '1'.toNat
              if f > 7 ∨ r > 7 then .error "bad ep coord"
              else .ok ((r : Int) * 8 + (f : Int))
          match epSq with
          | .error e => .error e
          | .ok en_passant_sq =>
            let b := { b with
              turn, castle, en_passant_sq,
              halfmove_clock := ((parseNat? halfmove).getD 0 : Int),
              fullmove_number := ((parseNat? fullmove).getD 1 : Int) }
            let b := b.rebuild_derived
            let b := b.recompute_zobrist
            let b := { b with history := [b.zobrist] }
            .ok b
  | _ => .error "missing fields"

/-- Position parsed from the standard start FEN. -/
def startBoard : Board :=
  match parse_fen START_FEN with
  | .ok b => b
  | .error _ => Board.empty

/-- Loop of `perft_inner` over the legal moves: apply, recurse via `f`, unmake
(the unmade board is threaded onward as in the source; the source snapshot
writes `b.unmake_move(u)`, which with this `Board` must denote
`b.unmake_move(m, u)`). -/
def perftFold (f : Board → Nat) : Board → List Move → Nat
  | _, [] => 0
  | b, m :: rest =>
    let (b2, u) := b.make_move m
    f b2 + perftFold f (b2.unmake_move m u) rest

/-- Leaf-count tree walk (`perft.rs` `perft_inner`), depth as the first,
structurally decreasing argument. -/
def perft_inner : Nat → Board → Nat
  | 0, _ => 1
  | depth + 1, b =>
    let moves := b.generate_legal_moves
    if depth = 0 then moves.length
    else perftFold (perft_inner depth) b moves

/-- Public perft entry point (`perft.rs` `perft`). -/
def perft (b : Board) (depth : Nat) : Nat := perft_inner depth b


/-! ## `tt.rs` -/

inductive Bound where
  | Exact
  | Lower
  | Upper
deriving DecidableEq, Repr

/-- Discriminant of a bound (`Bound as u8`). -/
def Bound.toU8 : Bound → Nat
  | .Exact => 0
  | .Lower => 1
  | .Upper => 2

/-- Bound from a 2-bit field (`Bound::from_u8`). -/
def Bound.from_u8 (val : Nat) : Bound :=
  match val with
  | 0 => .Exact
  | 1 => .Lower
  | _ => .Upper

/-- Truncation of an `i32` to its low 16 bits (`(score as i16) as u16`). -/
def i32AsU16 (score : Int) : Nat := (score % 65536).toNat

/-- Reinterpretation of 16 bits as a signed value (`as i16` then widening). -/
def u16AsI16 (n : Nat) : Int := if n < 32768 then (n : Int) else (n : Int) - 65536

/-- Compact 16-byte transposition entry (`TTEntry`): full key plus a packed
64-bit data field (score:16, move:16, depth:8, age:8, bound:2). -/
structure TTEntry where
  key : Nat
  data : Nat
deriving DecidableEq, Repr

def SCORE_SHIFT : Nat := 0
def MOVE_SHIFT : Nat := 16
def DEPTH_SHIFT : Nat := 32
def AGE_SHIFT : Nat := 40
def BOUND_SHIFT : Nat := 48

/-- Entry constructor (`TTEntry::new`): packs the fields.  `depth` is an
`i16` truncated to `u8`, `score` an `i32` truncated to `i16`. -/
def TTEntry.new (key : Nat) (depth : Int) (score : Int) (bound : Bound)
    (best_move : Option Move) (age : Nat) : TTEntry :=
  let packed_score := i32AsU16 score
  let packed_depth := (depth % 256).toNat
  let packed_move := best_move.elim 0 moveToU16
  let packed_age := age % 256
  let packed_bound := bound.toU8
  { key
    data := (packed_score <<< SCORE_SHIFT) ||| (packed_move <<< MOVE_SHIFT) |||
      (packed_depth <<< DEPTH_SHIFT) ||| (packed_age <<< AGE_SHIFT) |||
      (packed_bound <<< BOUND_SHIFT) }

/-- Unpacked score (`TTEntry::score`). -/
def TTEntry.score (e : TTEntry) : Int := u16AsI16 ((e.data >>> SCORE_SHIFT) &&& 0xFFFF)

/-- Unpacked depth (`TTEntry::depth`, a `u8` widened to `i16`). -/
def TTEntry.depth (e : TTEntry) : Int := ((e.data >>> DEPTH_SHIFT) &&& 0xFF : Nat)

/-- Unpacked best move (`TTEntry::best_move`). -/
def TTEntry.best_move (e : TTEntry) : Option Move :=
  let packed_move := (e.data >>> MOVE_SHIFT) &&& 0xFFFF
  if packed_move = 0 then none else some (moveOfU16 packed_move)

/-- Unpacked age (`TTEntry::age`). -/
def TTEntry.age (e : TTEntry) : Nat := (e.data >>> AGE_SHIFT) &&& 0xFF

/-- Unpacked bound (`TTEntry::bound`). -/
def TTEntry.bound (e : TTEntry) : Bound := Bound.from_u8 ((e.data >>> BOUND_SHIFT) &&& 0x3)

/-- Emptiness test (`TTEntry::is_empty`): a zero key marks a free slot. -/
def TTEntry.is_empty (e : TTEntry) : Bool := e.key = 0

/-- Default (zeroed) entry. -/
def TTEntry.zero : TTEntry := ⟨0, 0⟩

def CLUSTER_SIZE : Nat := 4

/-- Four-entry bucket (`TTCluster`), modelled as its entry list. -/
def TTCluster := List TTEntry
deriving instance DecidableEq, Repr for TTCluster

/-- Transposition table (`TransTable`): clusters, index mask, age counter. -/
structure TransTable where
  slots : List TTCluster
  mask : Nat
  age : Nat
deriving Repr

/-- Age bump (`tick_age`, wrapping `u8` increment). -/
def TransTable.tick_age (t : TransTable) : TransTable :=
  { t with age := (t.age + 1) % 256 }

/-- Cluster index of a key (`idx`). -/
def TransTable.idx (t : TransTable) (key : Nat) : Nat := key &&& t.mask

/-- Bucket probe (`probe`): first entry of the addressed cluster whose key
matches. -/
def TransTable.probe (t : TransTable) (key : Nat) : Option TTEntry :=
  let cluster := t.slots.getD (t.idx key) []
  cluster.find? (fun e => e.key = key)

/-- Store policy on the addressed cluster (the three passes of `store`):
first pass overwrites a matching-key entry when the table age equals the
entry age or the new depth is at least the old (and returns either way);
the second pass fills the first empty entry; otherwise the entry with the
lowest quality `2*depth - (age_current -w age_entry)` is evicted
(`-w` is wrapping `u8` subtraction). -/
def storeInCluster (cluster : List TTEntry) (tableAge : Nat) (key : Nat)
    (new_entry : TTEntry) : List TTEntry :=
  match cluster.findIdx? (fun e => e.key = key) with
  | some i =>
    let e := cluster.getD i TTEntry.zero
    if tableAge = e.age ∨ new_entry.depth ≥ e.depth then cluster.set i new_entry
    else cluster
  | none =>
    match cluster.findIdx? (fun e => e.is_empty) with
    | some i => cluster.set i new_entry
    | none =>
      let quality := fun (e : TTEntry) =>
        e.depth * 2 - (((tableAge + 256 - e.age) % 256 : Nat) : Int)
      let pick := (List.range cluster.length).foldl
        (fun (best : Nat × Int) i =>
          let q := quality (cluster.getD i TTEntry.zero)
          if q < best.2 then (i, q) else best)
        (0, (2 : Int) ^ 31 - 1)
      cluster.set pick.1 new_entry

/-- Bucket store (`store`). -/
def TransTable.store (t : TransTable) (key : Nat) (depth : Int) (score : Int)
    (bound : Bound) (best_move : Option Move) : TransTable :=
  let i := t.idx key
  let cluster := t.slots.getD i []
  let new_entry := TTEntry.new key depth score bound best_move t.age
  { t with slots := t.slots.set i (storeInCluster cluster t.age key new_entry) }

/-- Fresh empty single-cluster table (used to run searches from scratch;
sharding of `SharedTransTable` is concurrency plumbing and spec §5 makes a
lost update acceptable, so the search is modelled over one `TransTable`). -/
def TransTable.new1 : TransTable := ⟨[[TTEntry.zero, TTEntry.zero, TTEntry.zero, TTEntry.zero]], 0, 0⟩


/-! ## Leaper attack tables and `see.rs`

`see.rs` consumes the generated leaper tables (`KNIGHT_ATTACKS`,
`KING_ATTACKS`, `WHITE_PAWN_ATTACKS`, `BLACK_PAWN_ATTACKS`), emitted by the
build script and not part of `src/`.  Modelled from the spec: §4.1 "Knight
and king attack sets are 64-entry tables; pawn-capture tables are one per
color. No blockers." — the table entry of a square is the set of squares the
leaper attacks from it, with the usual file-wrap guards (the same deltas and
guards `board.rs` uses for its delta-based attack checks). -/

/-- Knight attack set of a square (`magics::knight_attacks_from`). -/
def knight_attacks_from (sq : Nat) : Nat :=
  KNIGHT_DELTAS.foldl (fun acc d =>
    let to' := (sq : Int) + d
    if in_board to' ∧ (file_of (sq : Int) - file_of to').natAbs ≤ 2 then acc ||| sqBit to'
    else acc) 0

/-- King attack set of a square (`magics::king_attacks_from`). -/
def king_attacks_from (sq : Nat) : Nat :=
  KING_DELTAS.foldl (fun acc d =>
    let to' := (sq : Int) + d
    if in_board to' ∧ (file_of (sq : Int) - file_of to').natAbs ≤ 1 then acc ||| sqBit to'
    else acc) 0

/-- Attack set of a white pawn on a square (`WHITE_PAWN_ATTACKS`). -/
def WHITE_PAWN_ATTACKS (sq : Nat) : Nat :=
  [(7 : Int), 9].foldl (fun acc d =>
    let to' := (sq : Int) + d
    if in_board to' ∧ (file_of (sq : Int) - file_of to').natAbs ≤ 1 then acc ||| sqBit to'
    else acc) 0

/-- Attack set of a black pawn on a square (`BLACK_PAWN_ATTACKS`). -/
def BLACK_PAWN_ATTACKS (sq : Nat) : Nat :=
  [(-7 : Int), -9].foldl (fun acc d =>
    let to' := (sq : Int) + d
    if in_board to' ∧ (file_of (sq : Int) - file_of to').natAbs ≤ 1 then acc ||| sqBit to'
    else acc) 0

/-- Fixed SEE piece values (`see.rs` `PIECE_VALUES`): P, N, B, R, Q, K. -/
def PIECE_VALUES : List Int := [100, 320, 330, 500, 900, 20000]

/-- Value of a piece for SEE (`see.rs` `val`); empty is 0. -/
def val (p : Piece) : Int :=
  match p.kind with
  | some kind => PIECE_VALUES.getD kind.index 0
  | none => 0

/-- Least-valuable attacker search (`see.rs` `get_attackers`): checks pawn,
knight, bishop, rook, queen, king in order, each restricted to `occupied`,
recomputing slider attacks from the current occupancy; returns the matching
attacker set and the least-valuable attacker with its square. -/
def get_attackers (b : Board) (sq : Nat) (occupied : Nat) (side : Color) :
    Nat × Option (Piece × Nat) :=
  let pawn_kind := Piece.from_kind .Pawn side
  let pawn_attacks := if side = .White then BLACK_PAWN_ATTACKS sq else WHITE_PAWN_ATTACKS sq
  let pawns := b.bbOf pawn_kind &&& occupied
  let cur := pawn_attacks &&& pawns
  if cur ≠ 0 then (cur, some (pawn_kind, trailingZeros64 cur))
  else
    let knight_kind := Piece.from_kind .Knight side
    let knights := b.bbOf knight_kind &&& occupied
    let cur := knight_attacks_from sq &&& knights
    if cur ≠ 0 then (cur, some (knight_kind, trailingZeros64 cur))
    else
      let bishop_kind := Piece.from_kind .Bishop side
      let bishop_attacks := get_bishop_attacks sq occupied
      let bishops := b.bbOf bishop_kind &&& occupied
      let cur := bishop_attacks &&& bishops
      if cur ≠ 0 then (cur, some (bishop_kind, trailingZeros64 cur))
      else
        let rook_kind := Piece.from_kind .Rook side
        let rook_attacks := get_rook_attacks sq occupied
        let rooks := b.bbOf rook_kind &&& occupied
        let cur := rook_attacks &&& rooks
        if cur ≠ 0 then (cur, some (rook_kind, trailingZeros64 cur))
        else
          let queen_kind := Piece.from_kind .Queen side
          let queens := b.bbOf queen_kind &&& occupied
          let cur := (bishop_attacks ||| rook_attacks) &&& queens
          if cur ≠ 0 then (cur, some (queen_kind, trailingZeros64 cur))
          else
            let king_kind := Piece.from_kind .King side
            let kings := b.bbOf king_kind &&& occupied
            let cur := king_attacks_from sq &&& kings
            if cur ≠ 0 then (cur, some (king_kind, trailingZeros64 cur))
            else (0, none)

/-- Swap-off loop of `see`: alternate sides, remove the least-valuable
attacker, and record `gain[i] = val(previous attacker) - gain[i-1]`.  The
fuel is the remaining room in the 32-entry gain array (`gain_idx` starts at
1 and the loop breaks at 32, so at most 31 entries are appended). -/
def seeLoop (b : Board) (to_sq : Nat) :
    Nat → Nat → Color → Piece → Int → List Int
  | 0, _, _, _, _ => []
  | fuel + 1, occupied, current_turn, from_piece, prev_gain =>
    let current_turn := current_turn.other
    match (get_attackers b to_sq occupied current_turn).2 with
    | some (attacker_piece, attacker_sq) =>
      let occupied := occupied ^^^ (1 <<< attacker_sq)
      let g := val from_piece - prev_gain
      g :: seeLoop b to_sq fuel occupied current_turn attacker_piece g
    | none => []

/-- Backward fold of the gain array (`while gain_idx > 1` loop of `see`):
`gain[i-1] = -max(-gain[i-1], gain[i])`, returning `gain[0]`. -/
def foldGains : List Int → Int
  | [] => 0
  | [g] => g
  | g :: rest => -(max (-g) (foldGains rest))

/-- Static exchange evaluation (`see.rs` `see`): 0 for non-captures, else
the folded gain array of the swap-off on the destination square. -/
def see (b : Board) (mov : Move) : Int :=
  if ¬ mov.capture then 0
  else
    let from_sq := mov.from'
    let to_sq := mov.to'
    let from_piece := b.piece_on.getD from_sq .Empty
    let occupied := b.all_pieces
    let captured_piece :=
      if mov.en_passant then Piece.from_kind .Pawn b.turn.other
      else b.piece_on.getD to_sq .Empty
    let gain0 := val captured_piece
    let occupied := occupied ^^^ (1 <<< from_sq)
    foldGains (gain0 :: seeLoop b to_sq 31 occupied b.turn from_piece gain0)


/-! ## `search.rs`

The search is embedded over a single `TransTable` (spec §5: sharding is
concurrency plumbing and lost updates are acceptable).  Two pieces of the
source have no shallow embedding and are abstracted into a context
`SearchCtx`: the evaluator `nnue::evaluate` (spec §4.5: any evaluator with
the contract `position -> centipawns` may be substituted; the search is
oblivious), and the late-move-reduction base term, computed in the source
with `f32` logarithms.  The wall-clock comparison of the time check is
modelled by a constant `budget_expired` oracle (elapsed time only grows, so
a constant covers the two regimes the theorems exercise: a budget that never
expires and one already expired at entry).  `negamax` additionally returns
a ghost flag `noMoves` recording whether its result came from the
no-legal-moves branch; the flag does not influence any computed value. -/

def MATE_SCORE : Int := 30000
def MATE_THRESHOLD : Int := MATE_SCORE - 512
def MAX_PLY : Nat := 128
def DRAW_SCORE : Int := 0

def FUTILITY_MARGIN : List Int := [0, 125, 250, 450, 700, 950, 1200, 1500]
def LMP_LIMITS : List Int := [0, 3, 5, 8]
def HISTORY_PRUNE_THRESHOLD : Int := 4000
def IID_MIN_DEPTH : Int := 5

def TT_MOVE_SCORE : Int := 2000000000
def GOOD_CAPTURE_SCORE : Int := 1900000000
def KILLER_1_SCORE : Int := 1800000000
def KILLER_2_SCORE : Int := 1700000000
def COUNTERMOVE_SCORE : Int := 1650000000
def QUIET_MOVE_SCORE : Int := 1600000000
def BAD_CAPTURE_SCORE : Int := -1900000000
def HISTORY_MAX : Int := 16384

/-- Abstracted environment of the search (see the section comment). -/
structure SearchCtx where
  evaluate : Board → Int
  lmr_base : Int → Nat → Int

/-- Search controller (`SearchController`): the atomic stop flag, the
main-thread marker, the node counter, and the constant time-budget oracle. -/
structure SearchController where
  budget_expired : Bool
  stop_signal : Bool
  is_main_thread : Bool
  nodes : Nat
deriving Repr

/-- Cooperative time check (`time_is_up`): the main thread compares elapsed
time to the budget every 4096 nodes and sets the stop flag; every caller
reads the stop flag. -/
def SearchController.time_is_up (c : SearchController) : Bool × SearchController :=
  if c.is_main_thread ∧ c.nodes &&& 4095 = 0 ∧ c.budget_expired then
    (true, { c with stop_signal := true })
  else (c.stop_signal, c)

/-- Per-thread search state (`Search`). -/
structure Search where
  board : Board
  tt : TransTable
  controller : SearchController
  killers : List (List (Option Move))
  history : List (List Int)
  counter_moves : List (List (List (Option Move)))
  ply : Nat
  seldepth : Nat
  prev_move : List (Option Move)

/-- History score of a (piece index, destination) pair. -/
def Search.histOf (s : Search) (pidx to_sq : Nat) : Int :=
  (s.history.getD pidx []).getD to_sq 0

/-- Update of the history table at a (piece index, destination) pair. -/
def Search.setHist (s : Search) (pidx to_sq : Nat) (v : Int) : Search :=
  { s with history := s.history.set pidx ((s.history.getD pidx []).set to_sq v) }

/-- Killer slot of a ply. -/
def Search.killerOf (s : Search) (ply : Nat) (slot : Nat) : Option Move :=
  ((s.killers.getD ply []).getD slot none)

/-- Counter-move slot. -/
def Search.counterOf (s : Search) (is_cap : Bool) (pidx to_sq : Nat) : Option Move :=
  (((s.counter_moves.getD (if is_cap then 1 else 0) []).getD pidx []).getD to_sq none)

/-- Move ordering score (`score_move`). -/
def score_move (s : Search) (m : Move) (tt_move : Option Move) : Int :=
  if some m = tt_move then TT_MOVE_SCORE
  else if m.capture then
    let see_val := see s.board m
    if see_val ≥ 0 then GOOD_CAPTURE_SCORE + see_val else BAD_CAPTURE_SCORE + see_val
  else if some m = s.killerOf s.ply 0 then KILLER_1_SCORE
  else if some m = s.killerOf s.ply 1 then KILLER_2_SCORE
  else
    let quietScore :=
      let piece_idx := (s.board.piece_on.getD m.from' .Empty).index
      QUIET_MOVE_SCORE + s.histOf piece_idx m.to'
    match s.prev_move.getD (s.ply - 1) none with
    | some prev_m =>
      let piece_idx := (s.board.piece_on.getD prev_m.from' .Empty).index
      if some m = s.counterOf prev_m.capture piece_idx prev_m.to' then COUNTERMOVE_SCORE
      else quietScore
    | none => quietScore

/-- Stable insertion into a list ascending by key `-score`
(`sort_unstable_by_key(|(_, score)| -score)`; the source sort is unstable,
so any order among equal keys is a faithful model). -/
def insertByNegScore (x : Move × Int) : List (Move × Int) → List (Move × Int)
  | [] => [x]
  | y :: ys => if -x.2 < -y.2 then x :: y :: ys else y :: insertByNegScore x ys

/-- Sort of the scored move list, descending by score. -/
def sortByNegScore (l : List (Move × Int)) : List (Move × Int) :=
  l.foldr insertByNegScore []

/-- Result of an embedded `negamax` call: the score, the mutated state, and
the ghost marker of the no-legal-moves branch. -/
structure NmRes where
  score : Int
  s : Search
  noMoves : Bool

/-- Quiescence loop over the scored tactical moves (`quiesce` move loop):
skips losing captures when not in check, applies and legality-checks each
move, recurses with the swapped window via `rec`, and raises beta cutoffs
as an `.error` early return. -/
def quiesceLoop (rec : Search → Int → Int → Int × Search) (beta : Int)
    (in_check : Bool) :
    Search → Int → Bool → List (Move × Int) → Except (Int × Search) (Int × Bool × Search)
  | s, alpha, legal_found, [] => .ok (alpha, legal_found, s)
  | s, alpha, legal_found, (m, _) :: rest =>
    if ¬ in_check ∧ m.capture ∧ see s.board m < 0 then
      quiesceLoop rec beta in_check s alpha legal_found rest
    else
      let (b2, undo) := s.board.make_move m
      let us := b2.turn.other
      let king_bb := b2.bbOf (Piece.from_kind .King us)
      if king_bb ≠ 0 ∧ b2.is_square_attacked (trailingZeros64 king_bb : Nat) b2.turn then
        quiesceLoop rec beta in_check { s with board := b2.unmake_move m undo } alpha legal_found rest
      else
        let s := { s with board := b2, ply := s.ply + 1 }
        let s := { s with prev_move := s.prev_move.set s.ply (some m) }
        let (score, s) :=
          let (q, s) := rec s (-beta) (-alpha)
          (-q, s)
        let s := { s with ply := s.ply - 1 }
        let s := { s with board := s.board.unmake_move m undo }
        if score ≥ beta then .error (beta, s)
        else quiesceLoop rec beta in_check s (max alpha score) true rest

/-- Quiescence search (`quiesce`), with explicit fuel for the recursion
depth (the Rust recursion terminates because captures strictly shrink the
board; any fuel at least that deep computes the same value). -/
def quiesce (ctx : SearchCtx) : Nat → Search → Int → Int → Int × Search
  | 0, s, _, _ => (0, s)
  | fuel + 1, s, alpha, beta =>
    let s := { s with seldepth := max s.seldepth s.ply }
    let s := { s with controller := { s.controller with nodes := s.controller.nodes + 1 } }
    let (up, c) := s.controller.time_is_up
    let s := { s with controller := c }
    if up then (0, s)
    else
      let king_sq : Int := trailingZeros64 (s.board.bbOf (Piece.from_kind .King s.board.turn))
      let in_check := s.board.is_square_attacked king_sq s.board.turn.other
      let (alpha, earlyBeta) :=
        if ¬ in_check then
          let stand_pat := ctx.evaluate s.board
          if stand_pat ≥ beta then (alpha, true)
          else (max alpha stand_pat, false)
        else (alpha, false)
      if earlyBeta then (beta, s)
      else
        let pseudo_moves := s.board.generate_pseudo_legal_moves
        let scored_moves := sortByNegScore
          ((pseudo_moves.filter fun m => m.capture || m.promotion.isSome || in_check).map
            fun m => (m, score_move s m none))
        match quiesceLoop (quiesce ctx fuel) beta in_check s alpha false scored_moves with
        | .error (score, s) => (score, s)
        | .ok (alpha, legal_found, s) =>
          if in_check ∧ ¬ legal_found then (-MATE_SCORE + (s.ply : Int), s)
          else (alpha, s)


/-- Mutable state of the `negamax` move loop. -/
structure NLoop where
  s : Search
  alpha : Int
  best_score : Int
  best_move : Option Move
  moves_searched : Nat

/-- Move loop of `negamax`: late-move and history pruning, legality check,
principal-variation search with late-move reductions, and the beta-cutoff
bookkeeping (killers, counter-move, history bonus and penalties).  `rec` is
the recursive `negamax` call at the remaining fuel; `.error` models the
in-loop `return 0` on a time-out, `.ok` falls through to the code after the
loop (also reached by the beta-cutoff `break`). -/
def negamaxLoop (ctx : SearchCtx) (rec : Search → Int → Int → Int → NmRes)
    (beta depth : Int) (is_pv in_check : Bool) (scored_moves : List (Move × Int)) :
    NLoop → List (Move × Int) → Except (Int × Search) NLoop
  | st, [] => .ok st
  | st, (m, _) :: rest =>
    if ¬ is_pv ∧ ¬ in_check ∧ depth ≤ 3 ∧ ¬ m.capture ∧ m.promotion = none ∧
        (st.moves_searched : Int) ≥ LMP_LIMITS.getD depth.toNat 0 then
      negamaxLoop ctx rec beta depth is_pv in_check scored_moves st rest
    else if depth ≤ 2 ∧ ¬ in_check ∧ ¬ m.capture ∧ m.promotion = none ∧
        st.s.histOf (st.s.board.piece_on.getD m.from' .Empty).index m.to' <
          -HISTORY_PRUNE_THRESHOLD then
      negamaxLoop ctx rec beta depth is_pv in_check scored_moves st rest
    else
      let (b2, undo) := st.s.board.make_move m
      let us := b2.turn.other
      let king_bb := b2.bbOf (Piece.from_kind .King us)
      if king_bb ≠ 0 ∧ b2.is_square_attacked (trailingZeros64 king_bb : Nat) b2.turn then
        negamaxLoop ctx rec beta depth is_pv in_check scored_moves
          { st with s := { st.s with board := b2.unmake_move m undo } } rest
      else
        let s := { st.s with board := b2, ply := st.s.ply + 1 }
        let s := { s with prev_move := s.prev_move.set s.ply (some m) }
        let moves_searched := st.moves_searched + 1
        let alpha := st.alpha
        -- principal-variation search: full window for the first move; for
        -- later moves a SEE skip, then a reduced scout and re-searches
        let pvs : Except (Int × Search) (Int × Search) :=
          if moves_searched = 1 then
            let r := rec s (-beta) (-alpha) (depth - 1)
            .ok (-r.score, r.s)
          else
            if depth < 8 ∧ ¬ in_check ∧ m.capture ∧ see s.board m < 0 then
              .error (0, s)  -- marker: the `continue` after undoing, see below
            else
              let reduction : Int :=
                if depth ≥ 3 ∧ ¬ m.capture ∧ ¬ in_check then
                  let red := ctx.lmr_base depth moves_searched
                  let red := if ¬ is_pv then red + 1 else red
                  let history_score :=
                    s.histOf (s.board.piece_on.getD m.from' .Empty).index m.to'
                  let red := red - Int.tdiv history_score 4096
                  min (max red 0) (depth - 2)
                else 0
              let r1 := rec s (-alpha - 1) (-alpha) (depth - 1 - reduction)
              let (sc1, s) := (-r1.score, r1.s)
              let (sc2, s) :=
                if sc1 > alpha ∧ reduction > 0 then
                  let r2 := rec s (-alpha - 1) (-alpha) (depth - 1)
                  (-r2.score, r2.s)
                else (sc1, s)
              let (sc3, s) :=
                if sc2 > alpha ∧ sc2 < beta then
                  let r3 := rec s (-beta) (-alpha) (depth - 1)
                  (-r3.score, r3.s)
                else (sc2, s)
              .ok (sc3, s)
        match pvs with
        | .error (_, s) =>
          -- the SEE `continue`: restore ply and board, keep moves_searched
          let s := { s with ply := s.ply - 1 }
          let s := { s with board := s.board.unmake_move m undo }
          negamaxLoop ctx rec beta depth is_pv in_check scored_moves
            { st with s, moves_searched } rest
        | .ok (score, s) =>
          let s := { s with ply := s.ply - 1 }
          let s := { s with board := s.board.unmake_move m undo }
          let (up, c) := s.controller.time_is_up
          let s := { s with controller := c }
          if up then .error (0, s)
          else if score > st.best_score then
            let best_score := score
            let best_move := some m
            if score > alpha then
              let alpha := score
              if alpha ≥ beta then
                let s :=
                  if ¬ m.capture then
                    let s :=
                      if some m ≠ s.killerOf s.ply 0 then
                        let row := (s.killers.getD s.ply [])
                        { s with killers :=
                            s.killers.set s.ply [some m, row.getD 0 none] }
                      else s
                    let s :=
                      match s.prev_move.getD (s.ply - 1) none with
                      | some prev_m =>
                        let piece_idx := (s.board.piece_on.getD prev_m.from' .Empty).index
                        let layer := if prev_m.capture then 1 else 0
                        let plane := s.counter_moves.getD layer []
                        let plane := plane.set piece_idx ((plane.getD piece_idx []).set prev_m.to' (some m))
                        { s with counter_moves := s.counter_moves.set layer plane }
                      | none => s
                    let piece_idx := (s.board.piece_on.getD m.from' .Empty).index
                    let bonus := min (depth * depth) 1000
                    let s := s.setHist piece_idx m.to' (s.histOf piece_idx m.to' + bonus)
                    let s :=
                      if s.histOf piece_idx m.to' > HISTORY_MAX then
                        { s with history := s.history.mapIdx fun p row =>
                            if 1 ≤ p then row.map (fun h => Int.fdiv h 2) else row }
                      else s
                    let s := (scored_moves.take (moves_searched - 1)).foldl
                      (fun s fm =>
                        if ¬ fm.1.capture then
                          let p_idx := (s.board.piece_on.getD fm.1.from' .Empty).index
                          s.setHist p_idx fm.1.to' (s.histOf p_idx fm.1.to' - bonus)
                        else s) s
                    s
                  else s
                .ok ⟨s, alpha, best_score, best_move, moves_searched⟩
              else
                negamaxLoop ctx rec beta depth is_pv in_check scored_moves
                  ⟨s, alpha, best_score, best_move, moves_searched⟩ rest
            else
              negamaxLoop ctx rec beta depth is_pv in_check scored_moves
                ⟨s, alpha, best_score, best_move, moves_searched⟩ rest
          else
            negamaxLoop ctx rec beta depth is_pv in_check scored_moves
              ⟨s, st.alpha, st.best_score, st.best_move, moves_searched⟩ rest

/-- Negamax alpha-beta search (`negamax`), fueled on the recursion depth.
Returns the score, the final state, and the ghost `noMoves` flag of the
no-legal-moves branch. -/
def negamax (ctx : SearchCtx) : Nat → Search → Int → Int → Int → NmRes
  | 0, s, _, _, _ => ⟨0, s, false⟩
  | fuel + 1, s, alpha, beta, depth =>
    let s := { s with seldepth := max s.seldepth s.ply }
    let (up, c) := s.controller.time_is_up
    let s := { s with controller := c }
    if up then ⟨0, s, false⟩
    else if s.ply > 0 ∧ (s.board.is_draw_by_repetition ∨ s.board.halfmove_clock ≥ 100) then
      ⟨DRAW_SCORE, s, false⟩
    else if s.ply ≥ MAX_PLY - 1 then ⟨ctx.evaluate s.board, s, false⟩
    else
      let is_pv := beta - alpha > 1
      let alpha_orig := alpha
      let key := s.board.zobrist
      let probed := s.tt.probe key
      let cutoff : Option Int :=
        match probed with
        | some entry =>
          if entry.depth ≥ depth ∧ s.ply > 0 then
            let score := entry.score
            let score :=
              if score.natAbs > MATE_THRESHOLD.toNat then
                if score > 0 then score - (s.ply : Int) else score + (s.ply : Int)
              else score
            match entry.bound with
            | .Exact => some score
            | .Lower => if score ≥ beta then some score else none
            | .Upper => if score ≤ alpha then some score else none
          else none
        | none => none
      match cutoff with
      | some score => ⟨score, s, false⟩
      | none =>
        let tt_move : Option Move := probed.bind (·.best_move)
        let king_sq : Int := trailingZeros64 (s.board.bbOf (Piece.from_kind .King s.board.turn))
        let in_check := s.board.is_square_attacked king_sq s.board.turn.other
        let depth := if in_check then depth + 1 else depth
        if depth ≤ 0 then
          let (q, s) := quiesce ctx fuel s alpha beta
          ⟨q, s, false⟩
        else
          let s := { s with controller := { s.controller with nodes := s.controller.nodes + 1 } }
          let (tt_move, s) :=
            if is_pv ∧ depth ≥ IID_MIN_DEPTH ∧ tt_move = none then
              let (up, c) := s.controller.time_is_up
              let s := { s with controller := c }
              if ¬ up then
                let r := negamax ctx fuel s alpha beta (depth - 2)
                let s := r.s
                match s.tt.probe key with
                | some entry => (entry.best_move, s)
                | none => (tt_move, s)
              else (tt_move, s)
            else (tt_move, s)
          let futile : Bool :=
            if ¬ is_pv ∧ ¬ in_check ∧ depth < 8 then
              decide (ctx.evaluate s.board - FUTILITY_MARGIN.getD depth.toNat 0 ≥ beta)
            else false
          if futile then ⟨beta, s, false⟩
          else
            let our_pieces := if s.board.turn = .White then s.board.w_pieces else s.board.b_pieces
            let non_pawn_king_material := our_pieces &&&
              (MASK64 ^^^ (s.board.bbOf .WP ||| s.board.bbOf .BP ||| s.board.bbOf .WK ||| s.board.bbOf .BK))
            let nullRes : Option (Int × Search) ⊕ Search :=
              if ¬ is_pv ∧ ¬ in_check ∧ depth ≥ 3 ∧ non_pawn_king_material ≠ 0 then
                let r := 3 + Int.tdiv depth 6
                let (b2, undo) := s.board.make_null_move
                let s := { s with board := b2, ply := s.ply + 1 }
                let rr := negamax ctx fuel s (-beta) (-beta + 1) (depth - r)
                let null_score := -rr.score
                let s := { rr.s with ply := rr.s.ply - 1 }
                let s := { s with board := s.board.unmake_null_move undo }
                if null_score ≥ beta then
                  if depth < 10 then .inl (some (beta, s))
                  else
                    let rv := negamax ctx fuel s (beta - 1) beta (depth - 6)
                    if rv.score ≥ beta then .inl (some (beta, rv.s))
                    else .inr rv.s
                else .inr s
              else .inr s
            match nullRes with
            | .inl (some (score, s)) => ⟨score, s, false⟩
            | .inl none => ⟨0, s, false⟩
            | .inr s =>
              let pseudo_moves := s.board.generate_pseudo_legal_moves
              let scored_moves := sortByNegScore
                (pseudo_moves.map fun m => (m, score_move s m tt_move))
              match negamaxLoop ctx (fun s a b d => negamax ctx fuel s a b d)
                  beta depth is_pv in_check scored_moves
                  ⟨s, alpha, -MATE_SCORE, none, 0⟩ scored_moves with
              | .error (score, s) => ⟨score, s, false⟩
              | .ok st =>
                if st.moves_searched = 0 then
                  if in_check then ⟨-MATE_SCORE + (st.s.ply : Int), st.s, true⟩
                  else ⟨DRAW_SCORE, st.s, true⟩
                else
                  let bound :=
                    if st.best_score ≤ alpha_orig then Bound.Upper
                    else if st.best_score ≥ beta then Bound.Lower
                    else Bound.Exact
                  let score_to_store :=
                    if st.best_score.natAbs > MATE_THRESHOLD.toNat then
                      if st.best_score > 0 then st.best_score + (st.s.ply : Int)
                      else st.best_score - (st.s.ply : Int)
                    else st.best_score
                  let s := { st.s with
                    tt := st.s.tt.store key depth score_to_store bound st.best_move }
                  ⟨st.best_score, s, false⟩


/-- Aspiration re-search loop of `best_move_timed` (the inner `loop`):
re-search with a widened bound on a fail-low or fail-high, break on success
or time-out.  Fueled; the fuel is not reached in the modelled runs. -/
def aspLoop (ctx : SearchCtx) (nfuel : Nat) (d : Int) :
    Nat → Search → Int → Int → Int × Search
  | 0, s, _, _ => (0, s)
  | fuel + 1, s, alpha, beta =>
    let r := negamax ctx nfuel s alpha beta d
    let s := r.s
    let (up, c) := s.controller.time_is_up
    let s := { s with controller := c }
    if up then (r.score, s)
    else if r.score ≤ alpha then aspLoop ctx nfuel d fuel s (-MATE_SCORE) beta
    else if r.score ≥ beta then aspLoop ctx nfuel d fuel s alpha MATE_SCORE
    else (r.score, s)

/-- Iterative-deepening loop of `best_move_timed` (`for d in 1..=max_depth`):
aspiration windows above depth 3, root best move from the TT after each
completed iteration, early exit on time-out or a mate score.  The info-line
printing of the source reads but never writes the state and is omitted. -/
def idLoop (ctx : SearchCtx) (nfuel afuel : Nat) :
    List Nat → Search → Option Move → Int → Option Move × Search
  | [], s, best_move, _ => (best_move, s)
  | d :: rest, s, best_move, score =>
    let s := { s with seldepth := 0 }
    let (alpha, beta) :=
      if d > 3 then (score - 40, score + 40) else (-MATE_SCORE, MATE_SCORE)
    let (score, s) := aspLoop ctx nfuel (d : Int) afuel s alpha beta
    let (up, c) := s.controller.time_is_up
    let s := { s with controller := c }
    if up then (best_move, s)
    else
      let best_move :=
        match s.tt.probe s.board.zobrist with
        | some entry => entry.best_move
        | none => best_move
      if score.natAbs > MATE_THRESHOLD.toNat then (best_move, s)
      else idLoop ctx nfuel afuel rest s best_move score

/-- Search entry point (`best_move_timed`): ages the table on the main
thread, runs iterative deepening from a fresh per-thread state, and returns
(best move, reached depth, node count).  The wall-clock budget is the
`budget_expired` oracle. -/
def best_move_timed (ctx : SearchCtx) (nfuel afuel : Nat) (b : Board)
    (tt : TransTable) (budget_expired : Bool) (max_depth : Nat)
    (stop_signal : Bool) (is_main_thread : Bool) :
    Option Move × Nat × Nat :=
  let tt := if is_main_thread then tt.tick_age else tt
  let search : Search :=
    { board := b
      tt
      controller := ⟨budget_expired, stop_signal, is_main_thread, 0⟩
      killers := List.replicate MAX_PLY [none, none]
      history := List.replicate 13 (List.replicate 64 0)
      counter_moves := List.replicate 2 (List.replicate 13 (List.replicate 64 none))
      ply := 0
      seldepth := 0
      prev_move := List.replicate MAX_PLY none }
  let (best_move, s) :=
    idLoop ctx nfuel afuel ((List.range max_depth).map (· + 1)) search none 0
  (best_move, max_depth, s.controller.nodes)


/-! ## Claim-facing specification definitions

Definitions below restate conditions in the words of the specification and
its claims, to be compared against the embedded source functions. -/

/-- Occurrence count of the current key within the last `halfmove_clock`
entries of the history stack (the stack holds its most recent entry first),
as the spec words the repetition rule. -/
def claimRepCount (b : Board) : Nat :=
  (b.history.take b.halfmove_clock.toNat).countP (fun key => key = b.zobrist)

/-- Overwrite condition as the claim states it: the new depth is at least
the existing entry's depth, or the new age differs from the existing
entry's age. -/
def claimOverwrite (newDepth oldDepth : Int) (newAge oldAge : Nat) : Prop :=
  newDepth ≥ oldDepth ∨ newAge ≠ oldAge

/-- Entry quality as the claim states it: `depth - (age_current - age_entry)`
(ages wrap as `u8`). -/
def claimQuality (e : TTEntry) (age : Nat) : Int :=
  e.depth - (((age + 256 - e.age) % 256 : Nat) : Int)

/-- Quality as the code computes it: `depth * 2 - (age_current -w age_entry)`. -/
def codeQuality (e : TTEntry) (age : Nat) : Int :=
  e.depth * 2 - (((age + 256 - e.age) % 256 : Nat) : Int)

/-- Index of the first entry attaining the minimum of `q` on the cluster. -/
def argminQ (q : TTEntry → Int) (cluster : List TTEntry) : Nat :=
  ((List.range cluster.length).foldl
    (fun (best : Nat × Int) i =>
      let qi := q (cluster.getD i TTEntry.zero)
      if qi < best.2 then (i, qi) else best)
    (0, (2 : Int) ^ 31 - 1)).1

/-- Pawn-capturability of the en-passant square, as the spec words it: the
side to move has a pawn that could capture on the target, i.e. pawn move
generation emits an en-passant capture. -/
def epCapturable (b : Board) : Prop :=
  ∃ m ∈ b.generate_pseudo_legal_moves, m.en_passant = true


/-- Attacker set of one piece kind on a square, restricted to an occupancy
(the per-kind sets `get_attackers` scans, spec §4.4: sliders recomputed from
the current occupancy). -/
def attackersOfKind (b : Board) (sq : Nat) (occupied : Nat) (side : Color) :
    PieceKind → Nat
  | .Pawn =>
    (if side = .White then BLACK_PAWN_ATTACKS sq else WHITE_PAWN_ATTACKS sq) &&&
      (b.bbOf (Piece.from_kind .Pawn side) &&& occupied)
  | .Knight => knight_attacks_from sq &&& (b.bbOf (Piece.from_kind .Knight side) &&& occupied)
  | .Bishop => get_bishop_attacks sq occupied &&& (b.bbOf (Piece.from_kind .Bishop side) &&& occupied)
  | .Rook => get_rook_attacks sq occupied &&& (b.bbOf (Piece.from_kind .Rook side) &&& occupied)
  | .Queen =>
    (get_bishop_attacks sq occupied ||| get_rook_attacks sq occupied) &&&
      (b.bbOf (Piece.from_kind .Queen side) &&& occupied)
  | .King => king_attacks_from sq &&& (b.bbOf (Piece.from_kind .King side) &&& occupied)

/-! ## Position invariants and reachability -/

/-- Consistency of the redundant position state (spec §3 invariants): sane
shapes, 64-bit-bounded words, agreement of the piece bitboards and the
square array, per-color occupancies as the color of the square array, the
aggregate as their union, and the current key on top of the history. -/
def Consistent (b : Board) : Prop :=
  b.piece_on.length = 64 ∧ b.piece_bb.length = 13 ∧
  (∀ p : Piece, b.bbOf p < 2 ^ 64) ∧
  b.w_pieces < 2 ^ 64 ∧ b.b_pieces < 2 ^ 64 ∧
  (∀ p : Piece, p ≠ .Empty → ∀ sq, sq < 64 →
    ((b.bbOf p).testBit sq ↔ b.piece_on.getD sq .Empty = p)) ∧
  (∀ sq, sq < 64 →
    (b.w_pieces.testBit sq ↔ (b.piece_on.getD sq .Empty).color = some .White)) ∧
  (∀ sq, sq < 64 →
    (b.b_pieces.testBit sq ↔ (b.piece_on.getD sq .Empty).color = some .Black)) ∧
  b.all_pieces = b.w_pieces ||| b.b_pieces ∧
  b.history ≠ [] ∧ b.history.headD 0 = b.zobrist

/-- En-passant invariant of play: a set target square is on the board and
empty (the double push was generated only with its transit square empty, and
the push itself does not occupy it). -/
def EpInv (b : Board) : Prop :=
  b.en_passant_sq ≠ NO_SQ →
    0 ≤ b.en_passant_sq ∧ b.en_passant_sq < 64 ∧
    b.piece_on.getD b.en_passant_sq.toNat .Empty = .Empty

/-- Facts a generated pseudo-legal move satisfies, in the form the
apply/undo bookkeeping consumes.  `F`/`T` are origin and destination. -/
def MoveOK (b : Board) (m : Move) : Prop :=
  let F := m.from'
  let T := m.to'
  let M := b.piece_on.getD F .Empty
  F < 64 ∧ T < 64 ∧ F ≠ T ∧
  M ≠ .Empty ∧ M.color = some b.turn ∧
  (∀ pk, m.promotion = some pk →
    M = Piece.from_kind .Pawn b.turn ∧ pk ≠ .Pawn ∧ pk ≠ .King) ∧
  (m.capture = false → b.piece_on.getD T .Empty = .Empty) ∧
  (m.capture = true → m.en_passant = false →
    (b.piece_on.getD T .Empty).color = some b.turn.other) ∧
  (m.en_passant = true →
    m.capture = true ∧ m.castle = false ∧ m.promotion = none ∧
    b.piece_on.getD T .Empty = .Empty ∧
    (b.turn = .White → 8 ≤ T ∧ T - 8 ≠ F ∧ T - 8 < 64) ∧
    (b.turn = .Black → T + 8 ≠ F ∧ T + 8 < 64)) ∧
  (m.castle = true →
    m.capture = false ∧ m.en_passant = false ∧ m.promotion = none ∧
    m.double_push = false ∧
    ((F = 4 ∧ T = 6) ∨ (F = 4 ∧ T = 2) ∨ (F = 60 ∧ T = 62) ∨ (F = 60 ∧ T = 58)) ∧
    (let rook_from := if T > F then T + 1 else T - 2
     let rook_to := if T > F then T - 1 else T + 1
     b.piece_on.getD rook_from .Empty ≠ .Empty ∧
     b.piece_on.getD rook_to .Empty = .Empty)) ∧
  (m.double_push = true →
    m.capture = false ∧ m.castle = false ∧ m.promotion = none ∧
    M = Piece.from_kind .Pawn b.turn ∧
    (b.turn = .White → T = F + 16 ∧ 8 ≤ F ∧ F < 16) ∧
    (b.turn = .Black → F = T + 16 ∧ 48 ≤ F ∧ F < 56))

/-- Positions reachable by legal play from the start position. -/
inductive Reachable : Board → Prop where
  | start : Reachable startBoard
  | step {b : Board} {m : Move} : Reachable b → m ∈ b.generate_legal_moves →
      Reachable (b.make_move m).1

/-! ## Concrete instances used by the theorems -/

/-- Trivial search context: constant evaluator, zero LMR base. -/
def ctx0 : SearchCtx := ⟨fun _ => 0, fun _ _ => 0⟩

/-- Fresh per-thread search state, as `best_move_timed` builds it. -/
def freshSearch (b : Board) (tt : TransTable) (c : SearchController) : Search :=
  { board := b
    tt
    controller := c
    killers := List.replicate MAX_PLY [none, none]
    history := List.replicate 13 (List.replicate 64 0)
    counter_moves := List.replicate 2 (List.replicate 13 (List.replicate 64 none))
    ply := 0
    seldepth := 0
    prev_move := List.replicate MAX_PLY none }

/-- Bare-kings position, white to move (three legal king moves). -/
def kkBoard : Board :=
  match parse_fen "7k/8/8/8/8/8/8/K7 w - - 0 1" with
  | .ok b => b
  | .error _ => Board.empty

/-- Search state at ply 1 on `kkBoard` whose history table holds -5000
everywhere, so depth ≤ 2 history pruning skips every quiet move. -/
def searchKK : Search :=
  { freshSearch kkBoard TransTable.new1 ⟨false, false, false, 0⟩ with
    ply := 1
    history := List.replicate 13 (List.replicate 64 (-5000)) }

/-- Stalemate position of spec §8 scenario 5 (black to move, no legal
moves, not in check). -/
def staleBoard : Board :=
  match parse_fen "7k/5Q2/6K1/8/8/8/8/8 b - - 0 1" with
  | .ok b => b
  | .error _ => Board.empty

/-- Search state at ply 1 on `staleBoard`. -/
def searchStale : Search :=
  { freshSearch staleBoard TransTable.new1 ⟨false, false, false, 0⟩ with ply := 1 }

/-- Application of a quiet move given as origin and destination. -/
def mkQuiet (b : Board) (f t : Nat) : Board := (b.make_move (Move.quiet f t)).1

/-- Position after Nf3 Nf6 Ng1 Ng8 Nf3 Nf6 Ng1 Ng8 from the start
(spec §8 scenario 6): the start position seen for the third time. -/
def rep8Board : Board :=
  mkQuiet (mkQuiet (mkQuiet (mkQuiet (mkQuiet (mkQuiet (mkQuiet (mkQuiet
    startBoard 6 21) 62 45) 21 6) 45 62) 6 21) 62 45) 21 6) 45 62

/-- Position after twelve such knight moves: the start position seen for
the fourth time, which the source predicate does flag. -/
def rep12Board : Board :=
  mkQuiet (mkQuiet (mkQuiet (mkQuiet rep8Board 6 21) 62 45) 21 6) 45 62

/-- Search state at ply 1 on `rep12Board`. -/
def searchRep12 : Search :=
  { freshSearch rep12Board TransTable.new1 ⟨false, false, false, 0⟩ with ply := 1 }

/-- White's double pawn push e2e4 as the generator emits it. -/
def e2e4 : Move := ⟨12, 28, false, false, true, false, none⟩

/-- Position after 1. e4: the en-passant target e3 is set although no black
pawn can capture on it. -/
def afterE4 : Board := (startBoard.make_move e2e4).1

/-- Single-bucket table holding one aged entry of depth 5, table age 3. -/
def ttCEx1 : TransTable :=
  ⟨[[TTEntry.new 99 5 10 .Exact none 3, TTEntry.zero, TTEntry.zero, TTEntry.zero]], 0, 3⟩

/-- Full single-bucket table, age 10, on which the claimed eviction quality
`depth - age_diff` and the implemented `2*depth - age_diff` pick different
victims (indices 0 and 1). -/
def ttCEx2 : TransTable :=
  ⟨[[TTEntry.new 11 10 0 .Exact none 0, TTEntry.new 22 3 0 .Exact none 9,
     TTEntry.new 33 9 0 .Exact none 5, TTEntry.new 44 9 0 .Exact none 5]], 0, 10⟩

/-- Rook-only kingless position: white to move with no white king. -/
def kinglessBoard : Board :=
  match parse_fen "7k/8/8/8/8/8/8/R7 w - - 0 1" with
  | .ok b => b
  | .error _ => Board.empty

/-- Pawn-takes-pawn position with a defender: 1...dxe4 leaves White to
recapture, a concrete SEE swap-off of two plies. -/
def seePos : Board :=
  match parse_fen "1k6/3r4/8/3p4/4P3/8/8/1K6 w - - 0 1" with
  | .ok b => b
  | .error _ => Board.empty

/-- Capture exd5 on `seePos` (e4 takes d5). -/
def seeMove : Move := ⟨28, 35, true, false, false, false, none⟩


/-- Shapes of moves the pawn generator can emit from square `sq`, with the
guards under which each is emitted (`gen_pawns` body). -/
def PawnCases (b : Board) (m : Move) (sq : Nat) : Prop :=
  let white := b.turn = .White
  let dir : Int := if white then 8 else -8
  let enemy := if white then b.b_pieces else b.w_pieces
  let r := rank_of (sq : Int)
  let start_rank : Int := if white then 1 else 6
  let promo_rank : Int := if white then 6 else 1
  (in_board ((sq : Int) + dir) = true ∧ b.all_pieces &&& sqBit ((sq : Int) + dir) = 0 ∧
    ((r = promo_rank ∧ ∃ pk, (pk = PieceKind.Queen ∨ pk = .Rook ∨ pk = .Bishop ∨ pk = .Knight) ∧
        m = ⟨sq, ((sq : Int) + dir).toNat, false, false, false, false, some pk⟩) ∨
     (r ≠ promo_rank ∧
       (m = Move.quiet sq ((sq : Int) + dir).toNat ∨
        (r = start_rank ∧ b.all_pieces &&& sqBit ((sq : Int) + 2 * dir) = 0 ∧
          m = ⟨sq, ((sq : Int) + 2 * dir).toNat, false, false, true, false, none⟩))))) ∨
  (∃ df : Int, (df = -1 ∨ df = 1) ∧
    ¬ ((df = -1 ∧ file_of (sq : Int) = 0) ∨ (df = 1 ∧ file_of (sq : Int) = 7)) ∧
    in_board ((sq : Int) + dir + df) = true ∧
    ((enemy &&& sqBit ((sq : Int) + dir + df) ≠ 0 ∧
       ((r = promo_rank ∧ ∃ pk, (pk = PieceKind.Queen ∨ pk = .Rook ∨ pk = .Bishop ∨ pk = .Knight) ∧
           m = ⟨sq, ((sq : Int) + dir + df).toNat, true, false, false, false, some pk⟩) ∨
        (r ≠ promo_rank ∧ m = ⟨sq, ((sq : Int) + dir + df).toNat, true, false, false, false, none⟩))) ∨
     (b.en_passant_sq = (sq : Int) + dir + df ∧
       m = ⟨sq, ((sq : Int) + dir + df).toNat, true, true, false, false, none⟩)))

/-- Shapes of moves the knight/king/castle generator can emit
(`gen_leapers` body). -/
def LeaperCases (b : Board) (m : Move) : Prop :=
  let white := b.turn = .White
  let friendly := if white then b.w_pieces else b.b_pieces
  let king := if white then Piece.WK else Piece.BK
  (∃ sq : Nat, (b.bbOf (if white then Piece.WN else Piece.BN)).testBit sq = true ∧
    ∃ d, d ∈ KNIGHT_DELTAS ∧ in_board ((sq : Int) + d) = true ∧
      (file_of (sq : Int) - file_of ((sq : Int) + d)).natAbs ≤ 2 ∧
      friendly &&& sqBit ((sq : Int) + d) = 0 ∧
      m = ⟨sq, ((sq : Int) + d).toNat,
        decide (b.all_pieces &&& sqBit ((sq : Int) + d) ≠ 0), false, false, false, none⟩) ∨
  (b.bbOf king ≠ 0 ∧
    (∃ d, d ∈ KING_DELTAS ∧
      in_board ((trailingZeros64 (b.bbOf king) : Int) + d) = true ∧
      (file_of (trailingZeros64 (b.bbOf king) : Int) -
        file_of ((trailingZeros64 (b.bbOf king) : Int) + d)).natAbs ≤ 1 ∧
      friendly &&& sqBit ((trailingZeros64 (b.bbOf king) : Int) + d) = 0 ∧
      m = ⟨trailingZeros64 (b.bbOf king), ((trailingZeros64 (b.bbOf king) : Int) + d).toNat,
        decide (b.all_pieces &&& sqBit ((trailingZeros64 (b.bbOf king) : Int) + d) ≠ 0),
        false, false, false, none⟩)) ∨
  (b.bbOf king ≠ 0 ∧
    b.is_square_attacked (trailingZeros64 (b.bbOf king) : Nat) b.turn.other = false ∧
    ((white ∧ b.castle &&& WK_CASTLE ≠ 0 ∧
        b.all_pieces &&& ((1 <<< 5) ||| (1 <<< 6)) = 0 ∧ b.pieceAt 7 = Piece.WR ∧
        m = ⟨4, 6, false, false, false, true, none⟩) ∨
     (white ∧ b.castle &&& WQ_CASTLE ≠ 0 ∧
        b.all_pieces &&& ((1 <<< 1) ||| (1 <<< 2) ||| (1 <<< 3)) = 0 ∧ b.pieceAt 0 = Piece.WR ∧
        m = ⟨4, 2, false, false, false, true, none⟩) ∨
     (¬ white ∧ b.castle &&& BK_CASTLE ≠ 0 ∧
        b.all_pieces &&& ((1 <<< 61) ||| (1 <<< 62)) = 0 ∧ b.pieceAt 63 = Piece.BR ∧
        m = ⟨60, 62, false, false, false, true, none⟩) ∨
     (¬ white ∧ b.castle &&& BQ_CASTLE ≠ 0 ∧
        b.all_pieces &&& ((1 <<< 57) ||| (1 <<< 58) ||| (1 <<< 59)) = 0 ∧ b.pieceAt 56 = Piece.BR ∧
        m = ⟨60, 58, false, false, false, true, none⟩)))

/-- Shapes of moves the slider generator can emit (`gen_sliders` body). -/
def SliderCases (b : Board) (m : Move) : Prop :=
  let white := b.turn = .White
  let friendly := if white then b.w_pieces else b.b_pieces
  let enemy := if white then b.b_pieces else b.w_pieces
  let occ := b.all_pieces
  (∃ sq : Nat, (b.bbOf (if white then Piece.WB else Piece.BB)).testBit sq = true ∧
    ∃ t : Nat, ((get_bishop_attacks sq occ &&& (MASK64 ^^^ friendly))).testBit t = true ∧
      m = ⟨sq, t, decide (enemy &&& sqBit (t : Nat) ≠ 0), false, false, false, none⟩) ∨
  (∃ sq : Nat, (b.bbOf (if white then Piece.WR else Piece.BR)).testBit sq = true ∧
    ∃ t : Nat, ((get_rook_attacks sq occ &&& (MASK64 ^^^ friendly))).testBit t = true ∧
      m = ⟨sq, t, decide (enemy &&& sqBit (t : Nat) ≠ 0), false, false, false, none⟩) ∨
  (∃ sq : Nat, (b.bbOf (if white then Piece.WQ else Piece.BQ)).testBit sq = true ∧
    ∃ t : Nat, (((get_rook_attacks sq occ ||| get_bishop_attacks sq occ) &&&
        (MASK64 ^^^ friendly))).testBit t = true ∧
      m = ⟨sq, t, decide (enemy &&& sqBit (t : Nat) ≠ 0), false, false, false, none⟩)

/-! ## Theorems -/

theorem take_drop_one {α : Type} (l : List α) (n : Nat) :
    (l.take n).drop 1 = (l.drop 1).take (n - 1) := by
  cases l with
  | nil => simp
  | cons a t => cases n with
    | zero => simp
    | succ k => simp

/-- C6 (corrected): the repetition-draw predicate used by the search holds
exactly when the current Zobrist key appears at least twice among the last
`halfmove_clock` history entries EXCLUDING the topmost entry (which is the
current key itself); equivalently, at least twice among the previous
`halfmove_clock - 1` keys.  At a non-root node with the clock not expired,
the predicate makes `negamax` return the draw score. -/
theorem repetition_predicate_characterization (b : Board) :
    (b.is_draw_by_repetition = true ↔
      2 ≤ ((b.history.drop 1).take (b.halfmove_clock.toNat - 1)).countP
        (fun key => key = b.zobrist)) ∧
    (∀ (ctx : SearchCtx) (fuel : Nat) (s : Search) (alpha beta depth : Int),
      s.board = b → (s.controller.time_is_up).1 = false → 0 < s.ply →
      b.is_draw_by_repetition = true →
      (negamax ctx (fuel + 1) s alpha beta depth).score = DRAW_SCORE) := by
  constructor
  · rw [Board.is_draw_by_repetition, Board.count_repetitions, take_drop_one]
    simp [ge_iff_le]
  · intro ctx fuel s alpha beta depth hb hup hply hdraw
    rw [negamax]
    rcases he : s.controller.time_is_up with ⟨up, c⟩
    have hupf : up = false := by rw [he] at hup; exact hup
    subst hupf
    simp only [he]
    rw [if_neg (by simp)]
    rw [if_pos ⟨hply, Or.inl (hb ▸ hdraw)⟩]

/-- C6 counterexample: after Nf3 Nf6 Ng1 Ng8 Nf3 Nf6 Ng1 Ng8 the current
key appears twice within the last `halfmove_clock` (= 8) history entries,
yet the source predicate does not declare the draw (it requires two earlier
occurrences, excluding the topmost entry). -/
theorem repetition_claim_counterexample :
    2 ≤ claimRepCount rep8Board ∧ rep8Board.is_draw_by_repetition = false := by
  constructor
  · decide
  · decide

/-- C6 witness: the characterization applied to the position after twelve
shuffling knight moves, which the predicate does flag. -/
theorem repetition_predicate_characterization_witness :
    rep12Board.is_draw_by_repetition = true ∧
    (negamax ctx0 1 searchRep12 (-MATE_SCORE) MATE_SCORE 5).score = DRAW_SCORE :=
  ⟨by decide, (repetition_predicate_characterization rep12Board).2 ctx0 0 searchRep12
    (-MATE_SCORE) MATE_SCORE 5 rfl (by decide) (by decide) (by decide)⟩


theorem testBit_small {x k : Nat} (n : Nat) (hx : x < 2 ^ n) (hk : n ≤ k) :
    x.testBit k = false :=
  Nat.testBit_lt_two_pow (lt_of_lt_of_le hx (Nat.pow_le_pow_right (by norm_num) hk))

theorem getD_set_ne {α : Type} (l : List α) (i j : Nat) (v d : α) (h : j ≠ i) :
    (l.set i v).getD j d = l.getD j d := by
  simp [List.getD, List.getElem?_set, Ne.symm h]

theorem getD_set_self {α : Type} (l : List α) (i : Nat) (v d : α) (h : i < l.length) :
    (l.set i v).getD i d = v := by
  simp [List.getD, List.getElem?_set, h]

theorem pack_extract_depth (ps pm pd pa pb : Nat) (hps : ps < 2 ^ 16) (hpm : pm < 2 ^ 16)
    (hpd : pd < 2 ^ 8) (hpb : pb < 4) :
    ((ps ||| (pm <<< 16) ||| (pd <<< 32) ||| (pa <<< 40) ||| (pb <<< 48)) >>> 32) &&& 255 = pd := by
  apply Nat.eq_of_testBit_eq
  intro i
  have h255 : (255 : Nat) = 2 ^ 8 - 1 := by norm_num
  rw [h255]
  simp only [Nat.testBit_land, Nat.testBit_shiftRight, Nat.testBit_lor, Nat.testBit_shiftLeft,
    Nat.testBit_two_pow_sub_one]
  by_cases hi : i < 8
  · have e1 : ps.testBit (32 + i) = false := testBit_small 16 hps (by omega)
    have e2 : pm.testBit (32 + i - 16) = false := testBit_small 16 hpm (by omega)
    have h16 : 16 ≤ 32 + i := by omega
    have h32 : 32 ≤ 32 + i := by omega
    have h40 : ¬ (40 ≤ 32 + i) := by omega
    have h48 : ¬ (48 ≤ 32 + i) := by omega
    have e32 : 32 + i - 32 = i := by omega
    simp [e1, e2, h16, h32, h40, h48, e32, hi]
  · have hz : pd.testBit i = false := testBit_small 8 hpd (by omega)
    simp [hi, hz]

theorem pack_extract_age (ps pm pd pa pb : Nat) (hps : ps < 2 ^ 16) (hpm : pm < 2 ^ 16)
    (hpd : pd < 2 ^ 8) (hpa : pa < 2 ^ 8) (hpb : pb < 4) :
    ((ps ||| (pm <<< 16) ||| (pd <<< 32) ||| (pa <<< 40) ||| (pb <<< 48)) >>> 40) &&& 255 = pa := by
  apply Nat.eq_of_testBit_eq
  intro i
  have h255 : (255 : Nat) = 2 ^ 8 - 1 := by norm_num
  rw [h255]
  simp only [Nat.testBit_land, Nat.testBit_shiftRight, Nat.testBit_lor, Nat.testBit_shiftLeft,
    Nat.testBit_two_pow_sub_one]
  by_cases hi : i < 8
  · have e1 : ps.testBit (40 + i) = false := testBit_small 16 hps (by omega)
    have e2 : pm.testBit (40 + i - 16) = false := testBit_small 16 hpm (by omega)
    have e3 : pd.testBit (40 + i - 32) = false := testBit_small 8 hpd (by omega)
    have h16 : 16 ≤ 40 + i := by omega
    have h32 : 32 ≤ 40 + i := by omega
    have h40 : 40 ≤ 40 + i := by omega
    have h48 : ¬ (48 ≤ 40 + i) := by omega
    have e40 : 40 + i - 40 = i := by omega
    simp [e1, e2, e3, h16, h32, h40, h48, e40, hi]
  · have hz : pa.testBit i = false := testBit_small 8 hpa (by omega)
    simp [hi, hz]

theorem moveToU16_lt (m : Move) (hf : m.from' < 64) (ht : m.to' < 64) :
    moveToU16 m < 2 ^ 16 := by
  rw [moveToU16]
  have h1 : m.from' < 2 ^ 16 := by omega
  have h2 : m.to' <<< 6 < 2 ^ 16 := by
    rw [Nat.shiftLeft_eq]
    omega
  apply Nat.or_lt_two_pow (Nat.or_lt_two_pow h1 h2)
  have hflags : ∀ flags : Nat, flags < 16 → flags <<< 12 < 2 ^ 16 := by
    intro flags hfl
    rw [Nat.shiftLeft_eq]
    omega
  apply hflags
  cases hp : m.promotion with
  | some pk =>
    simp only [hp]
    apply Nat.or_lt_two_pow (n := 4)
    · split <;> decide
    · cases pk <;> decide
  | none =>
    simp only [hp]
    split
    · decide
    · split
      · decide
      · split
        · split <;> decide
        · split <;> decide

theorem TTEntry_new_fields (key : Nat) (depth score : Int) (bound : Bound)
    (best_move : Option Move) (age : Nat)
    (h0 : 0 ≤ depth) (hd : depth < 256) (ha : age < 256)
    (hmv : ∀ mv, best_move = some mv → mv.from' < 64 ∧ mv.to' < 64) :
    (TTEntry.new key depth score bound best_move age).depth = depth ∧
    (TTEntry.new key depth score bound best_move age).age = age ∧
    (TTEntry.new key depth score bound best_move age).key = key := by
  have hps : i32AsU16 score < 2 ^ 16 := by
    rw [i32AsU16]
    have h1 := Int.emod_nonneg score (show (65536 : Int) ≠ 0 by norm_num)
    have h2 := Int.emod_lt_of_pos score (show (0 : Int) < 65536 by norm_num)
    omega
  have hpm : best_move.elim 0 moveToU16 < 2 ^ 16 := by
    cases hb : best_move with
    | none => norm_num
    | some mv =>
      obtain ⟨hf, ht⟩ := hmv mv hb
      exact moveToU16_lt mv hf ht
  have hpd : (depth % 256).toNat < 2 ^ 8 := by
    have h1 := Int.emod_nonneg depth (show (256 : Int) ≠ 0 by norm_num)
    have h2 := Int.emod_lt_of_pos depth (show (0 : Int) < 256 by norm_num)
    omega
  have hpa : age % 256 < 2 ^ 8 := by
    have := Nat.mod_lt age (show 0 < 256 by norm_num)
    omega
  have hpb : bound.toU8 < 4 := by cases bound <;> decide
  have hdmod : depth % 256 = depth := Int.emod_eq_of_lt h0 hd
  have hamod : age % 256 = age := Nat.mod_eq_of_lt ha
  refine ⟨?_, ?_, rfl⟩
  · show ((TTEntry.new key depth score bound best_move age).data >>> DEPTH_SHIFT &&& 0xFF : Nat) = (depth : Int)
    rw [TTEntry.new]
    simp only [DEPTH_SHIFT, SCORE_SHIFT, MOVE_SHIFT, AGE_SHIFT, BOUND_SHIFT, Nat.shiftLeft_zero]
    rw [pack_extract_depth _ _ _ _ _ hps hpm hpd hpb]
    rw [hdmod]
    exact Int.toNat_of_nonneg h0
  · show ((TTEntry.new key depth score bound best_move age).data >>> AGE_SHIFT &&& 0xFF : Nat) = age
    rw [TTEntry.new]
    simp only [AGE_SHIFT, SCORE_SHIFT, MOVE_SHIFT, DEPTH_SHIFT, BOUND_SHIFT, Nat.shiftLeft_zero]
    rw [pack_extract_age _ _ _ _ _ hps hpm hpd hpa hpb]
    exact hamod


theorem land_testBit_mono {bb sq : Nat} (h : (bb &&& (bb - 1)).testBit sq = true) :
    bb.testBit sq = true := by
  rw [Nat.testBit_land] at h
  exact ((Bool.and_eq_true _ _).mp h).1

theorem tzAux_testBit : ∀ (fuel bb : Nat), bb ≠ 0 → bb < 2 ^ fuel →
    bb.testBit (tzAux fuel bb) = true := by
  intro fuel
  induction fuel with
  | zero => intro bb h0 hlt; omega
  | succ k ih =>
    intro bb h0 hlt
    rw [tzAux]
    by_cases hpar : bb % 2 = 1
    · rw [if_pos hpar]
      simp [Nat.testBit_zero, hpar]
    · rw [if_neg hpar]
      have h2 : bb / 2 ≠ 0 := by omega
      have hl : bb / 2 < 2 ^ k := by
        rw [pow_succ] at hlt
        omega
      have := ih (bb / 2) h2 hl
      rw [Nat.testBit_add_one]
      exact this

theorem tz_testBit {bb : Nat} (hz : bb ≠ 0) (hlt : bb < 2 ^ 64) :
    bb.testBit (trailingZeros64 bb) = true :=
  tzAux_testBit 64 bb hz hlt

theorem testBit_lt64 {bb sq : Nat} (hlt : bb < 2 ^ 64) (h : bb.testBit sq = true) :
    sq < 64 := by
  by_contra hge
  rw [testBit_small 64 hlt (by omega)] at h
  cases h

theorem tz_lt64 {bb : Nat} (hz : bb ≠ 0) (hlt : bb < 2 ^ 64) :
    trailingZeros64 bb < 64 :=
  testBit_lt64 hlt (tz_testBit hz hlt)

theorem mem_whileBits {fuel bb : Nat} {f : Int → List Move} {m : Move}
    (hlt : bb < 2 ^ 64) (hm : m ∈ whileBits fuel bb f) :
    ∃ sq : Nat, bb.testBit sq = true ∧ m ∈ f (sq : Int) := by
  induction fuel generalizing bb with
  | zero => simp [whileBits] at hm
  | succ k ih =>
    rw [whileBits] at hm
    by_cases hz : bb = 0
    · simp [hz] at hm
    · rw [if_neg hz] at hm
      rcases List.mem_append.1 hm with h | h
      · exact ⟨trailingZeros64 bb, tz_testBit hz hlt, h⟩
      · have hlt2 : bb &&& (bb - 1) < 2 ^ 64 :=
          lt_of_le_of_lt Nat.and_le_left hlt
        obtain ⟨sq, hb, hf⟩ := ih hlt2 h
        exact ⟨sq, land_testBit_mono hb, hf⟩

theorem mem_whileBits' {fuel bb : Nat} {f : Int → List Move} {m : Move}
    (hm : m ∈ whileBits fuel bb f) :
    ∃ sq : Nat, m ∈ f (sq : Int) := by
  induction fuel generalizing bb with
  | zero => simp [whileBits] at hm
  | succ k ih =>
    rw [whileBits] at hm
    by_cases hz : bb = 0
    · simp [hz] at hm
    · rw [if_neg hz] at hm
      rcases List.mem_append.1 hm with h | h
      · exact ⟨trailingZeros64 bb, h⟩
      · exact ih h

theorem mem_ite_list {α : Type} {c : Prop} [Decidable c] {l1 l2 : List α} {a : α}
    (h : a ∈ (if c then l1 else l2)) : (c ∧ a ∈ l1) ∨ (¬ c ∧ a ∈ l2) := by
  by_cases hc : c
  · rw [if_pos hc] at h
    exact Or.inl ⟨hc, h⟩
  · rw [if_neg hc] at h
    exact Or.inr ⟨hc, h⟩

/-- C3 (corrected): on a store, buckets other than the addressed one are
untouched and the new entry's packed depth, age and key equal the inputs.
A matching-key entry in the addressed bucket is overwritten exactly when
the new depth is at least the existing entry's depth OR THE TABLE AGE
EQUALS the existing entry's age (the claim had the age condition negated);
otherwise the first empty entry is filled; otherwise the evicted entry is
the first minimizing `2 * depth - (age_current - age_entry)` (wrapping
`u8` ages; the claim stated `depth - (age_current - age_entry)`). -/
theorem tt_store_policy (t : TransTable) (key : Nat) (depth score : Int)
    (bound : Bound) (best_move : Option Move)
    (h0 : 0 ≤ depth) (hd : depth < 256) (ha : t.age < 256)
    (hmv : ∀ mv, best_move = some mv → mv.from' < 64 ∧ mv.to' < 64) :
    (∀ j, j ≠ t.idx key →
      (t.store key depth score bound best_move).slots.getD j [] = t.slots.getD j []) ∧
    (TTEntry.new key depth score bound best_move t.age).depth = depth ∧
    (TTEntry.new key depth score bound best_move t.age).age = t.age ∧
    (TTEntry.new key depth score bound best_move t.age).key = key ∧
    ((t.store key depth score bound best_move).slots.getD (t.idx key) [] =
      match (t.slots.getD (t.idx key) []).findIdx? (fun e => e.key = key) with
      | some j =>
        if depth ≥ ((t.slots.getD (t.idx key) []).getD j TTEntry.zero).depth ∨
            t.age = ((t.slots.getD (t.idx key) []).getD j TTEntry.zero).age then
          (t.slots.getD (t.idx key) []).set j
            (TTEntry.new key depth score bound best_move t.age)
        else t.slots.getD (t.idx key) []
      | none =>
        match (t.slots.getD (t.idx key) []).findIdx? (fun e => e.is_empty) with
        | some j =>
          (t.slots.getD (t.idx key) []).set j
            (TTEntry.new key depth score bound best_move t.age)
        | none =>
          (t.slots.getD (t.idx key) []).set
            (argminQ (fun e => codeQuality e t.age) (t.slots.getD (t.idx key) []))
            (TTEntry.new key depth score bound best_move t.age)) := by
  obtain ⟨hdep, hage, hkey⟩ :=
    TTEntry_new_fields key depth score bound best_move t.age h0 hd ha hmv
  refine ⟨?_, hdep, hage, hkey, ?_⟩
  · intro j hj
    rw [TransTable.store]
    exact getD_set_ne _ _ _ _ _ hj
  · rw [TransTable.store]
    by_cases hlen : t.idx key < t.slots.length
    · rw [getD_set_self _ _ _ _ hlen]
      rw [storeInCluster]
      cases hfind : (t.slots.getD (t.idx key) []).findIdx? (fun e => e.key = key) with
      | some j =>
        simp only []
        have hiff :
            (t.age = ((t.slots.getD (t.idx key) []).getD j TTEntry.zero).age ∨
              (TTEntry.new key depth score bound best_move t.age).depth ≥
                ((t.slots.getD (t.idx key) []).getD j TTEntry.zero).depth) ↔
            (depth ≥ ((t.slots.getD (t.idx key) []).getD j TTEntry.zero).depth ∨
              t.age = ((t.slots.getD (t.idx key) []).getD j TTEntry.zero).age) := by
          rw [hdep]
          exact Or.comm
        rw [if_congr hiff rfl rfl]
      | none =>
        simp only []
        cases hempty : (t.slots.getD (t.idx key) []).findIdx? (fun e => e.is_empty) with
        | some j => simp only []
        | none =>
          simp only []
          rfl
    · have hset : t.slots.set (t.idx key)
          (storeInCluster (t.slots.getD (t.idx key) []) t.age key
            (TTEntry.new key depth score bound best_move t.age)) = t.slots := by
        apply List.set_eq_of_length_le
        omega
      rw [hset]
      have hgd : t.slots.getD (t.idx key) [] = [] :=
        List.getD_eq_default _ _ (by omega)
      rw [hgd]
      rfl


/-- C3 counterexample: (i) with table age 3 equal to the entry age, a store
of SHALLOWER depth 2 over a matching-key entry of depth 5 does overwrite it,
although the claimed condition (deeper, or ages differing) is false; (ii) on
a full bucket the evicted victim is the first minimizer of the implemented
quality `2*depth - age_diff` (index 1), not of the claimed quality
`depth - age_diff` (index 0). -/
theorem tt_store_claim_counterexample :
    (((ttCEx1.store 99 2 7 .Exact none).slots.getD 0 []).getD 0 TTEntry.zero =
      TTEntry.new 99 2 7 .Exact none 3) ∧
    ¬ claimOverwrite 2 (TTEntry.new 99 5 10 .Exact none 3).depth 3
        (TTEntry.new 99 5 10 .Exact none 3).age ∧
    (((ttCEx2.store 55 4 0 .Exact none).slots.getD 0 []).getD 1 TTEntry.zero =
      TTEntry.new 55 4 0 .Exact none 10) ∧
    (((ttCEx2.store 55 4 0 .Exact none).slots.getD 0 []).getD 0 TTEntry.zero =
      TTEntry.new 11 10 0 .Exact none 0) ∧
    argminQ (fun e => claimQuality e 10) (ttCEx2.slots.getD 0 []) = 0 ∧
    argminQ (fun e => codeQuality e 10) (ttCEx2.slots.getD 0 []) = 1 := by
  refine ⟨by decide, ?_, by decide, by decide, by decide, by decide⟩
  rw [claimOverwrite]
  decide

/-- C3 witness: the store policy applied to the full-bucket table evicts
the first minimizer of the implemented quality. -/
theorem tt_store_policy_witness :
    ((0 : Int) ≤ 4 ∧ (4 : Int) < 256 ∧ ttCEx2.age < 256) ∧
    ((ttCEx2.store 55 4 0 .Exact none).slots.getD 0 [] =
      (ttCEx2.slots.getD 0 []).set 1 (TTEntry.new 55 4 0 .Exact none 10)) := by
  refine ⟨⟨by decide, by decide, by decide⟩, ?_⟩
  have h := tt_store_policy ttCEx2 55 4 0 .Exact none (by decide) (by decide) (by decide)
    (by intro mv hmv; cases hmv)
  have h5 := h.2.2.2.2
  revert h5
  decide


/-- C8 (code bug): with legal moves available but the stop flag already set
before depth 1 completes, `best_move_timed` returns no move at all — the
first-legal-move fallback the spec requires does not exist in the code. -/
theorem cancelled_search_returns_no_move :
    (best_move_timed ctx0 16 4 startBoard TransTable.new1 false 64 true true).1 = none ∧
    startBoard.generate_legal_moves ≠ [] := by
  constructor
  · decide
  · decide

/-- C4 counterexample: on a bare-kings position with three legal moves, a
search state whose quiet-history table is -5000 everywhere makes depth-1
`negamax` history-prune every move and return the stalemate score 0 through
the no-legal-moves branch, although legal moves exist. -/
theorem negamax_false_stalemate_counterexample :
    (negamax ctx0 8 searchKK (-MATE_SCORE) MATE_SCORE 1).noMoves = true ∧
    (negamax ctx0 8 searchKK (-MATE_SCORE) MATE_SCORE 1).score = DRAW_SCORE ∧
    kkBoard.generate_legal_moves ≠ [] := by
  refine ⟨by decide, by decide, by decide⟩

theorem gen_pawns_cases {b : Board} {m : Move}
    (hlt : b.bbOf (if b.turn = .White then Piece.WP else Piece.BP) < 2 ^ 64)
    (hm : m ∈ b.gen_pawns) :
    ∃ sq : Nat,
      (b.bbOf (if b.turn = .White then Piece.WP else Piece.BP)).testBit sq = true ∧
      PawnCases b m sq := by
  rw [Board.gen_pawns] at hm
  obtain ⟨sq, hbit, hsq⟩ := mem_whileBits hlt hm
  refine ⟨sq, hbit, ?_⟩
  rw [PawnCases]
  dsimp only at hsq ⊢
  rcases List.mem_append.1 hsq with hpush | hcap
  · rcases mem_ite_list hpush with ⟨hg, hp⟩ | ⟨hg, hp⟩
    · rw [Bool.and_eq_true] at hg
      obtain ⟨hgin, hgempty⟩ := hg
      have hgempty2 := of_decide_eq_true hgempty
      rcases mem_ite_list hp with ⟨hr, hp2⟩ | ⟨hr, hp2⟩
      · simp only [List.mem_map, List.mem_cons, List.not_mem_nil, or_false] at hp2
        obtain ⟨pk, hpk, hmeq⟩ := hp2
        refine Or.inl ⟨hgin, hgempty2, Or.inl ⟨hr, pk, ?_, ?_⟩⟩
        · tauto
        · rw [← hmeq]
          simp
      · rcases List.mem_append.1 hp2 with hq | hd
        · simp only [List.mem_singleton] at hq
          refine Or.inl ⟨hgin, hgempty2, Or.inr ⟨hr, Or.inl ?_⟩⟩
          rw [hq]
          simp [Move.quiet]
        · rcases mem_ite_list hd with ⟨hs, hd2⟩ | ⟨hs, hd2⟩
          · rcases mem_ite_list hd2 with ⟨he, hd3⟩ | ⟨he, hd3⟩
            · simp only [List.mem_singleton] at hd3
              refine Or.inl ⟨hgin, hgempty2, Or.inr ⟨hr, Or.inr ⟨hs, he, ?_⟩⟩⟩
              rw [hd3]
              simp
            · simp at hd3
          · simp at hd2
    · simp at hp
  · simp only [List.mem_flatMap, List.mem_cons, List.not_mem_nil, or_false] at hcap
    obtain ⟨df, hdf, hc⟩ := hcap
    rcases mem_ite_list hc with ⟨hg, hc2⟩ | ⟨hg, hc2⟩
    · simp at hc2
    · rcases mem_ite_list hc2 with ⟨hg2, hc3⟩ | ⟨hg2, hc3⟩
      · simp at hc3
      · rw [Bool.not_eq_true, ← Bool.not_eq_true'] at hg2
        have hg2b : in_board ((sq : Int) + (if b.turn = Color.White then (8 : Int) else -8) + df) = true := by
          revert hg2
          simp
        rcases List.mem_append.1 hc3 with hcc | hep
        · rcases mem_ite_list hcc with ⟨hg3, hc4⟩ | ⟨hg3, hc4⟩
          · rcases mem_ite_list hc4 with ⟨hr, hc5⟩ | ⟨hr, hc5⟩
            · simp only [List.mem_map, List.mem_cons, List.not_mem_nil, or_false] at hc5
              obtain ⟨pk, hpk, hmeq⟩ := hc5
              refine Or.inr ⟨df, by tauto, hg, hg2b, Or.inl ⟨hg3, Or.inl ⟨hr, pk, by tauto, ?_⟩⟩⟩
              rw [← hmeq]
              simp
            · simp only [List.mem_singleton] at hc5
              refine Or.inr ⟨df, by tauto, hg, hg2b, Or.inl ⟨hg3, Or.inr ⟨hr, ?_⟩⟩⟩
              rw [hc5]
              simp
          · simp at hc4
        · rcases mem_ite_list hep with ⟨hg3, hep2⟩ | ⟨hg3, hep2⟩
          · simp only [List.mem_singleton] at hep2
            refine Or.inr ⟨df, by tauto, hg, hg2b, Or.inr ⟨hg3, ?_⟩⟩
            rw [hep2]
            simp
          · simp at hep2


theorem gen_leapers_cases {b : Board} {m : Move}
    (hltn : b.bbOf (if b.turn = .White then Piece.WN else Piece.BN) < 2 ^ 64)
    (hm : m ∈ b.gen_leapers) : LeaperCases b m := by
  rw [Board.gen_leapers] at hm
  rw [LeaperCases]
  dsimp only at hm ⊢
  rcases List.mem_append.1 hm with hn | hk
  · obtain ⟨sq, hbit, hsq⟩ := mem_whileBits hltn hn
    simp only [List.mem_filterMap] at hsq
    obtain ⟨d, hd, hsome⟩ := hsq
    refine Or.inl ⟨sq, hbit, d, hd, ?_⟩
    clear hm hn
    split_ifs at hsome with h1 h2 h3 h4 h5 <;>
      first
        | exact Option.noConfusion hsome
        | (injection hsome with hv
           subst hv
           refine ⟨by simp_all, by first | omega | (simp_all <;> omega), ?_, by simp_all⟩
           split_ifs <;> simp_all)
  · by_cases hbz : b.bbOf (if b.turn = Color.White then Piece.WK else Piece.BK) = 0
    · rw [Board.first_sq, if_pos hbz] at hk
      simp at hk
    · rw [Board.first_sq, if_neg hbz] at hk
      dsimp only at hk
      rcases mem_ite_list hk with ⟨hatt, hk2⟩ | ⟨hatt, hk2⟩
      · simp only [List.mem_filterMap] at hk2
        obtain ⟨d, hd, hsome⟩ := hk2
        refine Or.inr (Or.inl ⟨hbz, d, hd, ?_⟩)
        clear hm hk
        split_ifs at hsome with h1 h2 h3 h4 h5 <;>
          first
            | exact Option.noConfusion hsome
            | (injection hsome with hv
               subst hv
               refine ⟨by simp_all, by first | omega | (simp_all <;> omega), ?_, by simp_all⟩
               split_ifs <;> simp_all)
      · rcases List.mem_append.1 hk2 with hkm | hcs
        · simp only [List.mem_filterMap] at hkm
          obtain ⟨d, hd, hsome⟩ := hkm
          refine Or.inr (Or.inl ⟨hbz, d, hd, ?_⟩)
          clear hm hk
          split_ifs at hsome with h1 h2 h3 h4 h5 <;>
            first
              | exact Option.noConfusion hsome
              | (injection hsome with hv
                 subst hv
                 refine ⟨by simp_all, by first | omega | (simp_all <;> omega), ?_, by simp_all⟩
                 split_ifs <;> simp_all)
        · have hattf : b.is_square_attacked
              (trailingZeros64 (b.bbOf (if b.turn = Color.White then Piece.WK else Piece.BK)) : Nat)
              b.turn.other = false := by
            revert hatt
            simp
          rcases mem_ite_list hcs with ⟨hw, hcs2⟩ | ⟨hw, hcs2⟩
          · rcases List.mem_append.1 hcs2 with hc1 | hc2
            · rcases mem_ite_list hc1 with ⟨hcond, hc⟩ | ⟨_, hc⟩
              · simp only [List.mem_singleton] at hc
                subst hc
                exact Or.inr (Or.inr ⟨hbz, hattf,
                  Or.inl ⟨hw, hcond.1, hcond.2.1, hcond.2.2.1, rfl⟩⟩)
              · simp at hc
            · rcases mem_ite_list hc2 with ⟨hcond, hc⟩ | ⟨_, hc⟩
              · simp only [List.mem_singleton] at hc
                subst hc
                exact Or.inr (Or.inr ⟨hbz, hattf,
                  Or.inr (Or.inl ⟨hw, hcond.1, hcond.2.1, hcond.2.2.1, rfl⟩)⟩)
              · simp at hc
          · rcases List.mem_append.1 hcs2 with hc1 | hc2
            · rcases mem_ite_list hc1 with ⟨hcond, hc⟩ | ⟨_, hc⟩
              · simp only [List.mem_singleton] at hc
                subst hc
                exact Or.inr (Or.inr ⟨hbz, hattf,
                  Or.inr (Or.inr (Or.inl ⟨hw, hcond.1, hcond.2.1, hcond.2.2.1, rfl⟩))⟩)
              · simp at hc
            · rcases mem_ite_list hc2 with ⟨hcond, hc⟩ | ⟨_, hc⟩
              · simp only [List.mem_singleton] at hc
                subst hc
                exact Or.inr (Or.inr ⟨hbz, hattf,
                  Or.inr (Or.inr (Or.inr ⟨hw, hcond.1, hcond.2.1, hcond.2.2.1, rfl⟩))⟩)
              · simp at hc


theorem rayWalk_lt (fuel : Nat) (r f dr df : Int) (blockers : Nat) :
    rayWalk fuel r f dr df blockers < 2 ^ 64 := by
  induction fuel generalizing r f with
  | zero =>
    rw [rayWalk]
    decide
  | succ n ih =>
    rw [rayWalk]
    dsimp only
    split_ifs with h1 h2 <;>
      first
        | decide
        | (have hlt : rf_to_sq r f < 64 := by
             rw [rf_to_sq]
             omega
           have hbit : bit (rf_to_sq r f) < 2 ^ 64 := by
             rw [bit, Nat.shiftLeft_eq, one_mul]
             exact Nat.pow_lt_pow_right (by decide) hlt
           first
             | exact hbit
             | exact Nat.or_lt_two_pow hbit (ih _ _))

theorem get_rook_attacks_lt (sq occ : Nat) : get_rook_attacks sq occ < 2 ^ 64 := by
  rw [get_rook_attacks, rays_rook_from]
  exact Nat.or_lt_two_pow (Nat.or_lt_two_pow (Nat.or_lt_two_pow
    (rayWalk_lt _ _ _ _ _ _) (rayWalk_lt _ _ _ _ _ _)) (rayWalk_lt _ _ _ _ _ _))
    (rayWalk_lt _ _ _ _ _ _)

theorem get_bishop_attacks_lt (sq occ : Nat) : get_bishop_attacks sq occ < 2 ^ 64 := by
  rw [get_bishop_attacks, rays_bishop_from]
  exact Nat.or_lt_two_pow (Nat.or_lt_two_pow (Nat.or_lt_two_pow
    (rayWalk_lt _ _ _ _ _ _) (rayWalk_lt _ _ _ _ _ _)) (rayWalk_lt _ _ _ _ _ _))
    (rayWalk_lt _ _ _ _ _ _)

theorem gen_sliders_cases {b : Board} {m : Move}
    (hbb : b.bbOf (if b.turn = .White then Piece.WB else Piece.BB) < 2 ^ 64)
    (hbr : b.bbOf (if b.turn = .White then Piece.WR else Piece.BR) < 2 ^ 64)
    (hbq : b.bbOf (if b.turn = .White then Piece.WQ else Piece.BQ) < 2 ^ 64)
    (hm : m ∈ b.gen_sliders) : SliderCases b m := by
  rw [Board.gen_sliders] at hm
  rw [SliderCases]
  dsimp only at hm ⊢
  rcases List.mem_append.1 hm with hbrk | hqm
  · rcases List.mem_append.1 hbrk with hbm | hrm
    · obtain ⟨sq, hbit, hsq⟩ := mem_whileBits hbb hbm
      have hattlt : get_bishop_attacks (sq : Int).toNat b.all_pieces &&&
          (MASK64 ^^^ (if b.turn = Color.White then b.w_pieces else b.b_pieces)) < 2 ^ 64 :=
        Nat.lt_of_le_of_lt Nat.and_le_left (get_bishop_attacks_lt _ _)
      obtain ⟨t, htbit, htm⟩ := mem_whileBits hattlt hsq
      simp only [List.mem_singleton] at htm
      subst htm
      refine Or.inl ⟨sq, hbit, t, ?_, by simp⟩
      simpa using htbit
    · obtain ⟨sq, hbit, hsq⟩ := mem_whileBits hbr hrm
      have hattlt : get_rook_attacks (sq : Int).toNat b.all_pieces &&&
          (MASK64 ^^^ (if b.turn = Color.White then b.w_pieces else b.b_pieces)) < 2 ^ 64 :=
        Nat.lt_of_le_of_lt Nat.and_le_left (get_rook_attacks_lt _ _)
      obtain ⟨t, htbit, htm⟩ := mem_whileBits hattlt hsq
      simp only [List.mem_singleton] at htm
      subst htm
      refine Or.inr (Or.inl ⟨sq, hbit, t, ?_, by simp⟩)
      simpa using htbit
  · obtain ⟨sq, hbit, hsq⟩ := mem_whileBits hbq hqm
    have hattlt : (get_rook_attacks (sq : Int).toNat b.all_pieces |||
        get_bishop_attacks (sq : Int).toNat b.all_pieces) &&&
        (MASK64 ^^^ (if b.turn = Color.White then b.w_pieces else b.b_pieces)) < 2 ^ 64 :=
      Nat.lt_of_le_of_lt Nat.and_le_left
        (Nat.or_lt_two_pow (get_rook_attacks_lt _ _) (get_bishop_attacks_lt _ _))
    obtain ⟨t, htbit, htm⟩ := mem_whileBits hattlt hsq
    simp only [List.mem_singleton] at htm
    subst htm
    refine Or.inr (Or.inr ⟨sq, hbit, t, ?_, by simp⟩)
    simpa using htbit


def PS (k : Piece) (l : List Piece) : Prop := ∀ j : Nat, l.getD j .Empty ≠ k

theorem PS_set {k : Piece} {l : List Piece} {i : Nat} {x : Piece}
    (h : PS k l) (hx : x ≠ k) : PS k (l.set i x) := by
  intro j
  by_cases hij : j = i
  · subst hij
    by_cases hlen : j < l.length
    · rw [getD_set_self l j x .Empty hlen]
      exact hx
    · rw [List.set_eq_of_length_le (by omega)]
      exact h j
  · rw [getD_set_ne l i j x .Empty hij]
    exact h j

theorem PS_getD {k : Piece} {l : List Piece} (h : PS k l) (j : Nat) :
    l.getD j .Empty ≠ k := h j

theorem index_inj : ∀ p q : Piece, p.index = q.index → p = q := by
  intro p q
  cases p <;> cases q <;> decide

def BBz (k : Piece) (pb : List Nat) : Prop := pb.getD k.index 0 = 0

theorem BBz_set {k p : Piece} {pb : List Nat} {v : Nat}
    (h : BBz k pb) (hp : p ≠ k) : BBz k (pb.set p.index v) := by
  rw [BBz, getD_set_ne pb p.index k.index v 0 (fun he => hp (index_inj _ _ he.symm))]
  exact h

set_option maxHeartbeats 2000000 in
theorem make_noking (c : Board) (m : Move) (k : Piece)
    (hkk : k = .WK ∨ k = .BK)
    (hps : PS k c.piece_on) (hbb : BBz k c.piece_bb)
    (hpromo : ∀ pk, m.promotion = some pk → Piece.from_kind pk c.turn ≠ k) :
    PS k (c.make_move m).1.piece_on ∧ BBz k (c.make_move m).1.piece_bb ∧
    (c.make_move m).2.captured_piece ≠ k := by
  have hempty : Piece.Empty ≠ k := by rcases hkk with h | h <;> subst h <;> decide
  rw [Board.make_move]
  dsimp only
  rcases hpm : m.promotion with _ | pk <;> cases hcap : m.capture <;> cases hcs : m.castle <;>
    simp only [hpm, hcap, hcs, Bool.false_eq_true, if_true, if_false, ite_true, ite_false] <;>
    (try dsimp only) <;>
    (try split_ifs) <;>
    refine ⟨?_, ?_, ?_⟩ <;>
    repeat' first
      | exact hps
      | exact hbb
      | exact hempty
      | exact hpromo _ hpm
      | apply PS_set
      | apply BBz_set
      | apply PS_getD


theorem other_other (c : Color) : c.other.other = c := by cases c <;> rfl

theorem make_turn (c : Board) (m : Move) : (c.make_move m).1.turn = c.turn.other := by
  rw [Board.make_move]

theorem unmake_turn (c : Board) (m : Move) (u : Undo) :
    (c.unmake_move m u).turn = c.turn.other := by
  rw [Board.unmake_move]

set_option maxHeartbeats 2000000 in
theorem unmake_noking (c : Board) (m : Move) (u : Undo) (k : Piece)
    (hkk : k = .WK ∨ k = .BK)
    (hps : PS k c.piece_on) (hbb : BBz k c.piece_bb)
    (hu : u.captured_piece ≠ k) :
    PS k (c.unmake_move m u).piece_on ∧ BBz k (c.unmake_move m u).piece_bb := by
  have hempty : Piece.Empty ≠ k := by rcases hkk with h | h <;> subst h <;> decide
  have hpawn : ∀ col, Piece.from_kind .Pawn col ≠ k := by
    rcases hkk with h | h <;> subst h <;> intro col <;> cases col <;> decide
  rw [Board.unmake_move]
  dsimp only
  cases hcap : m.capture <;> cases hep : m.en_passant <;> cases hcs : m.castle <;>
    simp only [hcap, hep, hcs, Bool.false_eq_true, if_true, if_false, ite_true, ite_false] <;>
    (try dsimp only) <;>
    (try split_ifs) <;>
    refine ⟨?_, ?_⟩ <;>
    repeat' first
      | exact hps
      | exact hbb
      | exact hempty
      | exact hu
      | exact hpawn _
      | apply PS_set
      | apply BBz_set
      | apply PS_getD

theorem pseudo_promo_not_king {b : Board} {m : Move}
    (hbbs : ∀ p : Piece, b.bbOf p < 2 ^ 64)
    (hm : m ∈ b.generate_pseudo_legal_moves) :
    ∀ pk, m.promotion = some pk → pk ≠ .King := by
  intro pk hpk
  rw [Board.generate_pseudo_legal_moves] at hm
  rcases List.mem_append.1 hm with hm' | hs
  · rcases List.mem_append.1 hm' with hp | hl
    · obtain ⟨sq, _, hc⟩ := gen_pawns_cases (hbbs _) hp
      rw [PawnCases] at hc
      try dsimp only at hc
      rcases hc with ⟨_, _, ⟨_, pk', hpk', he⟩ | ⟨_, he | ⟨_, _, he⟩⟩⟩ |
          ⟨df, _, _, _, ⟨_, ⟨_, pk', hpk', he⟩ | ⟨_, he⟩⟩ | ⟨_, he⟩⟩ <;>
        (rw [he] at hpk
         dsimp only [Move.quiet] at hpk
         first
           | exact Option.noConfusion hpk
           | (cases Option.some.inj hpk
              rcases hpk' with h | h | h | h <;> subst h <;> decide))
    · have hc := gen_leapers_cases (hbbs _) hl
      rw [LeaperCases] at hc
      try dsimp only at hc
      rcases hc with ⟨sq, _, d, _, _, _, _, he⟩ | ⟨_, d, _, _, _, _, he⟩ |
          ⟨_, _, ⟨_, _, _, _, he⟩ | ⟨_, _, _, _, he⟩ | ⟨_, _, _, _, he⟩ | ⟨_, _, _, _, he⟩⟩ <;>
        (rw [he] at hpk
         dsimp only at hpk
         exact Option.noConfusion hpk)
  · have hc := gen_sliders_cases (hbbs _) (hbbs _) (hbbs _) hs
    rw [SliderCases] at hc
    try dsimp only at hc
    rcases hc with ⟨sq, _, t, _, he⟩ | ⟨sq, _, t, _, he⟩ | ⟨sq, _, t, _, he⟩ <;>
      (rw [he] at hpk
       dsimp only at hpk
       exact Option.noConfusion hpk)

theorem from_kind_king_eq (col : Color) (pk : PieceKind) :
    Piece.from_kind pk col = Piece.from_kind .King col → pk = .King := by
  cases col <;> cases pk <;> decide

theorem legalLoop_noking (k : Piece) (hkk : k = .WK ∨ k = .BK) :
    ∀ (ms : List Move) (c : Board),
      k = Piece.from_kind .King c.turn →
      (∀ m ∈ ms, ∀ pk, m.promotion = some pk → pk ≠ .King) →
      PS k c.piece_on → BBz k c.piece_bb →
      legalLoop c ms = [] := by
  intro ms
  induction ms with
  | nil =>
    intro c _ _ _ _
    rw [legalLoop]
  | cons m rest ih =>
    intro c hk hmoves hps hbb
    have hpromo : ∀ pk, m.promotion = some pk → Piece.from_kind pk c.turn ≠ k := by
      intro pk hpk he
      exact hmoves m (List.mem_cons_self m rest) pk hpk (from_kind_king_eq c.turn pk (he.trans hk))
    obtain ⟨hps2, hbb2, hcapne⟩ := make_noking c m k hkk hps hbb hpromo
    have hturn : (c.make_move m).1.turn = c.turn.other := make_turn c m
    rw [legalLoop]
    rcases hbm : c.make_move m with ⟨b2, u⟩
    rw [hbm] at hps2 hbb2 hcapne hturn
    dsimp only at hps2 hbb2 hcapne hturn ⊢
    have hkbb : b2.bbOf (Piece.from_kind .King b2.turn.other) = 0 := by
      rw [hturn, other_other, ← hk, Board.bbOf]
      exact hbb2
    rw [if_pos hkbb]
    obtain ⟨hps3, hbb3⟩ := unmake_noking b2 m u k hkk hps2 hbb2 hcapne
    apply ih
    · rw [unmake_turn, hturn, other_other]
      exact hk
    · intro m' hm'
      exact hmoves m' (List.mem_cons_of_mem m hm')
    · exact hps3
    · exact hbb3


theorem kinglessBoard_consistent : Consistent kinglessBoard := by
  rw [Consistent]
  refine ⟨by decide, by decide, ?_, by decide, by decide, ?_, ?_, ?_, by decide, by decide,
    by decide⟩
  · intro p
    cases p <;> decide
  · intro p hp
    cases p
    · exact absurd rfl hp
    all_goals decide
  · decide
  · decide

/-- C10: in a consistent position whose side to move has no king on the board
(the king bitboard of that side is zero), the legality filter rejects every
pseudo-legal move, so `generate_legal_moves` returns the empty list. -/
theorem kingless_side_generates_no_moves (b : Board)
    (hc : Consistent b)
    (hk : b.bbOf (Piece.from_kind .King b.turn) = 0) :
    b.generate_legal_moves = [] := by
  have hkk : Piece.from_kind .King b.turn = Piece.WK ∨
      Piece.from_kind .King b.turn = Piece.BK := by
    cases b.turn
    · left
      rfl
    · right
      rfl
  have hkne : Piece.from_kind .King b.turn ≠ .Empty := by
    rcases hkk with h | h <;> rw [h] <;> decide
  have hps : PS (Piece.from_kind .King b.turn) b.piece_on := by
    intro j
    by_cases hj : j < 64
    · intro he
      have hbit := (hc.2.2.2.2.2.1 _ hkne j hj).2 he
      rw [hk] at hbit
      simp at hbit
    · rw [List.getD_eq_default]
      · exact Ne.symm hkne
      · rw [hc.1]
        omega
  have hbbz : BBz (Piece.from_kind .King b.turn) b.piece_bb := by
    rw [BBz, ← Board.bbOf]
    exact hk
  rw [Board.generate_legal_moves]
  exact legalLoop_noking _ hkk _ b rfl
    (fun m hm => pseudo_promo_not_king hc.2.2.1 hm) hps hbbz

/-- C10 witness: in the rook-only position with white to move and no white
king on the board, the legal move list is empty. -/
theorem kingless_side_generates_no_moves_witness :
    kinglessBoard.bbOf (Piece.from_kind .King kinglessBoard.turn) = 0 ∧
    kinglessBoard.generate_legal_moves = [] :=
  ⟨by decide,
   kingless_side_generates_no_moves kinglessBoard kinglessBoard_consistent (by decide)⟩


theorem make_ep (c : Board) (m : Move) :
    (c.make_move m).1.en_passant_sq =
      if m.double_push then
        ((if c.turn = .White then m.from' + 8 else m.from' - 8 : Nat) : Int)
      else NO_SQ := by
  rw [Board.make_move]
  dsimp only
  cases hdp : m.double_push <;>
    simp only [hdp, Bool.false_eq_true, if_true, if_false, ite_true, ite_false]

theorem pseudo_double_push {c : Board} {m : Move}
    (hbbs : ∀ p : Piece, c.bbOf p < 2 ^ 64)
    (hm : m ∈ c.generate_pseudo_legal_moves)
    (hdp : m.double_push = true) :
    ∃ sq : Nat, sq < 64 ∧ m.from' = sq ∧
      rank_of (sq : Int) = (if c.turn = .White then 1 else 6) := by
  rw [Board.generate_pseudo_legal_moves] at hm
  rcases List.mem_append.1 hm with hm' | hs
  · rcases List.mem_append.1 hm' with hp | hl
    · obtain ⟨sq, hbit, hc⟩ := gen_pawns_cases (hbbs _) hp
      have hsq : sq < 64 := testBit_lt64 (hbbs _) hbit
      rw [PawnCases] at hc
      try dsimp only at hc
      rcases hc with ⟨_, _, ⟨_, pk', hpk', he⟩ | ⟨_, he | ⟨hr, _, he⟩⟩⟩ |
          ⟨df, _, _, _, ⟨_, ⟨_, pk', hpk', he⟩ | ⟨_, he⟩⟩ | ⟨_, he⟩⟩ <;>
        first
          | (rw [he] at hdp
             dsimp only [Move.quiet] at hdp
             exact Bool.noConfusion hdp)
          | (refine ⟨sq, hsq, by rw [he], hr⟩)
    · have hc := gen_leapers_cases (hbbs _) hl
      rw [LeaperCases] at hc
      try dsimp only at hc
      rcases hc with ⟨sq, _, d, _, _, _, _, he⟩ | ⟨_, d, _, _, _, _, he⟩ |
          ⟨_, _, ⟨_, _, _, _, he⟩ | ⟨_, _, _, _, he⟩ | ⟨_, _, _, _, he⟩ | ⟨_, _, _, _, he⟩⟩ <;>
        (rw [he] at hdp
         dsimp only at hdp
         exact Bool.noConfusion hdp)
  · have hc := gen_sliders_cases (hbbs _) (hbbs _) (hbbs _) hs
    rw [SliderCases] at hc
    try dsimp only at hc
    rcases hc with ⟨sq, _, t, _, he⟩ | ⟨sq, _, t, _, he⟩ | ⟨sq, _, t, _, he⟩ <;>
      (rw [he] at hdp
       dsimp only at hdp
       exact Bool.noConfusion hdp)

/-- C9 (corrected): when a move taken from the pseudo-legal generator leaves
the en-passant target set, that target lies on rank index 2 (chess rank 3,
White just double-pushed) or rank index 5 (chess rank 6, Black just
double-pushed).  The capturability part of the claim is refuted separately:
the target is set after every double push, capturable or not. -/
theorem ep_target_rank (c : Board) (m : Move)
    (hbbs : ∀ p : Piece, c.bbOf p < 2 ^ 64)
    (hm : m ∈ c.generate_pseudo_legal_moves)
    (hep : (c.make_move m).1.en_passant_sq ≠ NO_SQ) :
    rank_of ((c.make_move m).1.en_passant_sq) = 2 ∨
    rank_of ((c.make_move m).1.en_passant_sq) = 5 := by
  have hmk := make_ep c m
  by_cases hdp : m.double_push = true
  · obtain ⟨sq, hlt, hfrom, hrank⟩ := pseudo_double_push hbbs hm hdp
    rw [hmk, if_pos hdp, hfrom]
    rw [rank_of] at hrank ⊢
    rw [Int.fdiv_eq_ediv _ (by decide)] at hrank ⊢
    by_cases ht : c.turn = .White
    · rw [if_pos ht] at hrank ⊢
      left
      push_cast at hrank ⊢
      omega
    · rw [if_neg ht] at hrank ⊢
      right
      have h8 : 8 ≤ sq := by
        by_contra hcon
        push_cast at hrank
        omega
      push_cast [h8] at hrank ⊢
      omega
  · rw [hmk, if_neg hdp] at hep
    exact absurd rfl hep

/-- C9 counterexample: after 1. e4 from the start position the en-passant
target e3 (square 20) is set, yet the side to move (Black) has no
pseudo-legal en-passant capture: the unconditional assignment contradicts
the claim that a capturing pawn exists. -/
theorem ep_capturable_counterexample :
    afterE4.en_passant_sq = 20 ∧ rank_of afterE4.en_passant_sq = 2 ∧
    ¬ epCapturable afterE4 := by
  refine ⟨by decide, by decide, ?_⟩
  rw [epCapturable]
  decide

/-- C9 witness: the corrected rank statement applied to 1. e4 from the start
position. -/
theorem ep_target_rank_witness :
    e2e4 ∈ startBoard.generate_pseudo_legal_moves ∧
    (startBoard.make_move e2e4).1.en_passant_sq ≠ NO_SQ ∧
    (rank_of ((startBoard.make_move e2e4).1.en_passant_sq) = 2 ∨
     rank_of ((startBoard.make_move e2e4).1.en_passant_sq) = 5) :=
  ⟨by decide, by decide,
   ep_target_rank startBoard e2e4 (fun p => by cases p <;> decide) (by decide) (by decide)⟩


theorem set_set_probe {α} (l : List α) (i : Nat) (a b : α) : (l.set i a).set i b = l.set i b :=
  List.set_set a b l i

theorem set_comm_probe {α} (l : List α) {i j : Nat} (a b : α) (h : i ≠ j) :
    (l.set i a).set j b = (l.set j b).set i a :=
  List.set_comm a b l h

theorem set_getD_self {α} (l : List α) (i : Nat) (d : α) (h : i < l.length) :
    l.set i (l.getD i d) = l := by
  apply List.ext_getElem?
  intro n
  by_cases hn : n = i
  · subst hn
    rw [List.getElem?_set_self h]
    rw [List.getD, List.get?_eq_getElem?, List.getElem?_eq_getElem h]
    simp
  · rw [List.getElem?_set_ne (fun he => hn he.symm)]

theorem testBit_shiftLeft_one (F i : Nat) : (1 <<< F).testBit i = decide (i = F) := by
  rw [Nat.shiftLeft_eq, one_mul, Nat.testBit_two_pow]
  by_cases h : F = i
  · subst h
    simp
  · simp [h, Ne.symm h]

theorem mask64_xor_bit_testBit (T i : Nat) (hT : T < 64) :
    ((MASK64 ^^^ (1 <<< T)).testBit i) = (decide (i < 64) && ! decide (i = T)) := by
  rw [Nat.testBit_xor, testBit_shiftLeft_one, MASK64, Nat.testBit_two_pow_sub_one]
  by_cases h : i = T
  · subst h
    simp [hT]
  · simp [h]

theorem bit_restore_mover (bb F T : Nat) (hbb : bb < 2 ^ 64) (hF : F < 64) (hT : T < 64)
    (hFT : F ≠ T) (hbF : bb.testBit F = true) (hbT : bb.testBit T = false) :
    (((bb ^^^ (1 <<< F)) ||| (1 <<< T)) ||| (1 <<< F)) &&& (MASK64 ^^^ (1 <<< T)) = bb := by
  apply Nat.eq_of_testBit_eq
  intro i
  rw [Nat.testBit_and, Nat.testBit_or, Nat.testBit_or, Nat.testBit_xor,
    mask64_xor_bit_testBit _ _ hT, testBit_shiftLeft_one, testBit_shiftLeft_one]
  by_cases hiT : i = T
  · subst hiT
    simp_all
  · by_cases hiF : i = F
    · subst hiF
      simp_all
    · by_cases hi64 : i < 64
      · simp_all
      · have : bb.testBit i = false := testBit_small 64 hbb (by omega)
        simp_all

theorem bit_restore_captured (bb k : Nat) (hbk : bb.testBit k = true) :
    (bb ^^^ (1 <<< k)) ||| (1 <<< k) = bb := by
  apply Nat.eq_of_testBit_eq
  intro i
  rw [Nat.testBit_or, Nat.testBit_xor, testBit_shiftLeft_one]
  by_cases h : i = k
  · subst h
    simp_all
  · simp_all

theorem bit_restore_arrived (bb T : Nat) (hbb : bb < 2 ^ 64) (hT : T < 64)
    (hbT : bb.testBit T = false) :
    (bb ||| (1 <<< T)) &&& (MASK64 ^^^ (1 <<< T)) = bb := by
  apply Nat.eq_of_testBit_eq
  intro i
  rw [Nat.testBit_and, Nat.testBit_or, mask64_xor_bit_testBit _ _ hT, testBit_shiftLeft_one]
  by_cases h : i = T
  · subst h
    simp_all
  · by_cases hi64 : i < 64
    · simp_all
    · have : bb.testBit i = false := testBit_small 64 hbb (by omega)
      simp_all

theorem xor_cancel_nat (bb r : Nat) : (bb ^^^ r) ^^^ r = bb := Nat.xor_cancel_right r bb

theorem bit_restore_mover_rook (bb F T RF RT : Nat) (hbb : bb < 2 ^ 64)
    (hF : F < 64) (hT : T < 64) (hRF : RF < 64) (hRT : RT < 64)
    (hFT : F ≠ T) (hFRF : F ≠ RF) (hFRT : F ≠ RT) (hTRF : T ≠ RF) (hTRT : T ≠ RT)
    (hRFRT : RF ≠ RT)
    (hbF : bb.testBit F = true) (hbT : bb.testBit T = false) :
    ((((((bb ^^^ (1 <<< F)) ||| (1 <<< T)) ^^^ ((1 <<< RF) ||| (1 <<< RT))) ||| (1 <<< F)) &&&
      (MASK64 ^^^ (1 <<< T))) ^^^ ((1 <<< RF) ||| (1 <<< RT))) = bb := by
  apply Nat.eq_of_testBit_eq
  intro i
  rw [Nat.testBit_xor, Nat.testBit_and, Nat.testBit_or, Nat.testBit_xor, Nat.testBit_or,
    Nat.testBit_xor, mask64_xor_bit_testBit _ _ hT, Nat.testBit_or, testBit_shiftLeft_one,
    testBit_shiftLeft_one, testBit_shiftLeft_one, testBit_shiftLeft_one]
  by_cases hiT : i = T
  · subst hiT
    simp_all
  · by_cases hiF : i = F
    · subst hiF
      simp_all
    · by_cases hiRF : i = RF
      · subst hiRF
        simp_all
      · by_cases hiRT : i = RT
        · subst hiRT
          simp_all
        · by_cases hi64 : i < 64
          · simp_all
          · have : bb.testBit i = false := testBit_small 64 hbb (by omega)
            simp_all

end Chess
